import Mathlib

/-!
# hyper2color: colorimetric rendering of a hyperspectral cube

A shallow embedding of `src/color.h`, `src/color.c` and of the rendering part
of `main` in `src/hyper2color.c`.

Conventions of the embedding.

* A C `float` or `double` is an element of a linearly ordered field `α`
  (exact arithmetic).  The definitions are generic in `α`, so they compute
  over `ℚ` and are reasoned about over `ℝ`.
* Two parts of the program are embedded more closely.  The colour conversions
  exist a second time over `CFloat α`, which adds the infinities and NaN of
  IEEE 754, because `main` can pass them a NaN tristimulus.  The products of
  the L*a*b* quantizer are rounded to double precision, because its literals
  `2.55` and `655.35` are not doubles.
* The `libm` functions `cbrtf`, `powf` and `exp` and the GSL interpolant are
  parameters of the functions that call them.  `pow(wlm, 5)` is the fifth
  power `wlm ^ 5`.
* A C array is a `List`; a read or a write outside the array gives `none`.
* A C `int` or `unsigned int` is a mathematical integer: the sizes, indices and
  wavelengths at hand stay far from the 32-bit limits.  Only the narrowing
  casts of the quantizer carry their modulus.
* Output parameters (`float *L, *a, *b`) become a returned triple.
-/

namespace Hyper2Color

/-! ## color.h -/

/-- The `X_D65` reference white of `color.h`. -/
def X_D65 {α : Type} [LinearOrderedField α] : α := 95.047

/-- The `Y_D65` reference white of `color.h`. -/
def Y_D65 {α : Type} [LinearOrderedField α] : α := 100.0

/-- The `Z_D65` reference white of `color.h`. -/
def Z_D65 {α : Type} [LinearOrderedField α] : α := 108.88

/-- A `float m[3][3]` matrix: `m i j` is `m[i][j]`. -/
abbrev Matrix3 (α : Type) : Type := Fin 3 → Fin 3 → α

/-- The table `XYZ_sRGB_matrix_D65` of `color.h`. -/
def XYZ_sRGB_matrix_D65 {α : Type} [LinearOrderedField α] : Matrix3 α :=
  ![![ 3.240479, -1.537150, -0.498535],
    ![-0.969256,  1.875992,  0.041556],
    ![ 0.055648, -0.204043,  1.057311]]

/-- The table `XYZ_sRGB_matrix_D50` of `color.h`. -/
def XYZ_sRGB_matrix_D50 {α : Type} [LinearOrderedField α] : Matrix3 α :=
  ![![ 3.1338561, -1.6168667, -0.4906146],
    ![-0.9787684,  1.9161415,  0.0334540],
    ![ 0.0719453, -0.2289914,  1.4052427]]

/-- The table `XYZ_AdobeRGB_matrix_D65` of `color.h`. -/
def XYZ_AdobeRGB_matrix_D65 {α : Type} [LinearOrderedField α] : Matrix3 α :=
  ![![ 2.0413690, -0.5649464, -0.3446944],
    ![-0.9692660,  1.8760108,  0.0415560],
    ![ 0.0134474, -0.1183897,  1.0154096]]

/-- The table `XYZ_AdobeRGB_matrix_D50` of `color.h`. -/
def XYZ_AdobeRGB_matrix_D50 {α : Type} [LinearOrderedField α] : Matrix3 α :=
  ![![ 1.9624274, -0.6105343, -0.3413404],
    ![-0.9787684,  1.9161415,  0.0334540],
    ![ 0.0286869, -0.1406752,  1.3487655]]

/-! ## color.c -/

/-- The three identical branches of `XYZ2LAB`:
`if ( v > 0.008856 ) v = cbrtf(v); else v = ( 7.787 * v ) + ( 16.0 / 116.0 );` -/
def lab_f {α : Type} [LinearOrderedField α] (cbrtf : α → α) (v : α) : α :=
  if v > 0.008856 then cbrtf v else (7.787 * v) + (16.0 / 116.0)

/-- The clip `(x <= 0.0 ? 0.0 : x >= hi ? hi : x)` used by `XYZ2LAB` (`hi = 100.0`)
and by `XYZ2RGB` (`hi = 1.0`). -/
def clip {α : Type} [LinearOrderedField α] (hi x : α) : α :=
  if x ≤ 0.0 then 0.0 else if x ≥ hi then hi else x

/-- The function `XYZ2LAB` of `color.c`; the result is `(L, a, b)`. -/
def XYZ2LAB {α : Type} [LinearOrderedField α] (cbrtf : α → α) (X Y Z : α) : α × α × α :=
  let var_X := lab_f cbrtf (X / X_D65)
  let var_Y := lab_f cbrtf (Y / Y_D65)
  let var_Z := lab_f cbrtf (Z / Z_D65)
  let L := (116.0 * var_Y) - 16.0
  let a := 500.0 * (var_X - var_Y)
  let b := 200.0 * (var_Y - var_Z)
  (clip 100.0 L, a, b)

/-- The function `_sRGB_Gamma` of `color.c`. -/
def _sRGB_Gamma {α : Type} [LinearOrderedField α] (powf : α → α → α) (c : α) : α :=
  let alpha : α := 0.055
  if c ≤ 0.0031308 then 12.92 * c
  else (1 + alpha) * powf c (1 / 2.4) - alpha

/-- The function `sRGB_Gamma` of `color.c`, on the triple `(R, G, B)`. -/
def sRGB_Gamma {α : Type} [LinearOrderedField α] (powf : α → α → α) (RGB : α × α × α) :
    α × α × α :=
  (_sRGB_Gamma powf RGB.1, _sRGB_Gamma powf RGB.2.1, _sRGB_Gamma powf RGB.2.2)

/-- The function `AdobeRGB_Gamma` of `color.c`, on the triple `(R, G, B)`. -/
def AdobeRGB_Gamma {α : Type} [LinearOrderedField α] (powf : α → α → α) (RGB : α × α × α) :
    α × α × α :=
  let gamma : α := 256.0 / 563.0
  (powf RGB.1 gamma, powf RGB.2.1 gamma, powf RGB.2.2 gamma)

/-- The function `XYZ2RGB` of `color.c`; the result is `(R, G, B)`. -/
def XYZ2RGB {α : Type} [LinearOrderedField α] (matrix : Matrix3 α) (X Y Z : α) : α × α × α :=
  let X := X / 100.0
  let Y := Y / 100.0
  let Z := Z / 100.0
  let r := X * matrix 0 0 + Y * matrix 0 1 + Z * matrix 0 2
  let g := X * matrix 1 0 + Y * matrix 1 1 + Z * matrix 1 2
  let b := X * matrix 2 0 + Y * matrix 2 1 + Z * matrix 2 2
  (clip 1.0 r, clip 1.0 g, clip 1.0 b)

/-! ## hyper2color.c: colour conversion in the pixel loop -/

/-- The `colorspace == PHOTOMETRIC_RGB` branch of the pixel loop of `main`
(lines 611-627): the matrix is chosen by `icc_profile == 2` and by
`temperature == 5000`, and the matching gamma is applied. -/
def render_RGB {α : Type} [LinearOrderedField α] (powf : α → α → α)
    (icc_profile : Nat) (temperature : Int) (XX YY ZZ : α) : α × α × α :=
  if icc_profile = 2 then
    AdobeRGB_Gamma powf
      (if temperature = 5000 then XYZ2RGB XYZ_AdobeRGB_matrix_D50 XX YY ZZ
       else XYZ2RGB XYZ_AdobeRGB_matrix_D65 XX YY ZZ)
  else
    sRGB_Gamma powf
      (if temperature = 5000 then XYZ2RGB XYZ_sRGB_matrix_D50 XX YY ZZ
       else XYZ2RGB XYZ_sRGB_matrix_D65 XX YY ZZ)


/-! ## hyper2color.c: illuminant, normalisation and the pixel sum -/

/-- The function `calculate_power_spectrum` of `hyper2color.c`. -/
def calculate_power_spectrum {α : Type} [LinearOrderedField α] (exp : α → α)
    (bbTemp wavelength : Int) : α :=
  let wlm : α := (wavelength : α) * 1e-9
  3.74177152e-16 / (wlm ^ 5 * (exp (0.0143877696 / (wlm * (bbTemp : α))) - 1.0))

/-- The `case 't'` of the option switch of `main` (lines 267-276); `atoi` is
the C library function. -/
def parse_temperature (atoi : String → Int) (optarg : String) : Int :=
  if optarg = "D93" then 9300
  else if optarg = "D75" then 7500
  else if optarg = "D65" then 6504
  else if optarg = "D50" then 5000
  else if optarg = "A" then -1
  else atoi optarg

/-- The read `table[i]` of a row of a C array through an `int` index: `none`
when the index is outside the array. -/
def readRow {ρ : Type} (table : List ρ) (i : Int) : Option ρ :=
  if i < 0 then none else table[i.toNat]?

/-- One row `power_spectrum[k-300]` as the loop of lines 436-443 fills it:
column 0 is the wavelength `k`, column 1 the power.  `CIE_A` and `D65` are the
static tables of `CIE-A.c` and `CIE-D65.c` (rows `(wavelength, power)`). -/
def power_spectrum_row {α : Type} [LinearOrderedField α] (exp : α → α)
    (CIE_A D65 : List (α × α)) (temperature : Int) (k : Int) : Option (α × α) :=
  if temperature = -1 then (readRow CIE_A (k - 300)).map fun row => ((k : α), row.2)
  else if temperature = 6504 then (readRow D65 (k - 300)).map fun row => ((k : α), row.2)
  else some ((k : α), calculate_power_spectrum exp temperature k)

/-- The loop `for( k=300; k<=830; k++ )` of `main` (lines 435-443) that loads
`power_spectrum[531][2]`: row `i` is written at step `k = 300 + i`.  The loop
tests nothing about `temperature` beyond the two equalities; the result is
`none` only when a read of a static table is out of bounds. -/
def load_power_spectrum {α : Type} [LinearOrderedField α] (exp : α → α)
    (CIE_A D65 : List (α × α)) (temperature : Int) : Option (List (α × α)) :=
  (List.range 531).mapM fun (i : Nat) =>
    power_spectrum_row exp CIE_A D65 temperature (300 + (i : Int))

/-- The conversion of a `double` to `int`: truncation towards zero. -/
def c_trunc {α : Type} [LinearOrderedField α] [FloorRing α] (x : α) : Int :=
  if 0 ≤ x then ⌊x⌋ else ⌈x⌉

/-- Line 446: `int firstwav = ceil( header.wavelengths[0] );`. -/
def first_wavelength {α : Type} [LinearOrderedField α] [FloorRing α]
    (wavelengths : List α) : Option Int :=
  (readRow wavelengths 0).map fun w => ⌈w⌉

/-- Lines 448-449: `tr = firstwav - cie_color_match[0][0]` and
`te = firstwav - power_spectrum[0][0]`, the result is `(tr, te)`.  A row of
`cie_color_match` is `(wavelength, x, y, z)`, a row of `power_spectrum` is
`(wavelength, power)`. -/
def table_offsets {α : Type} [LinearOrderedField α] [FloorRing α]
    (cie_color_match : List (α × α × α × α)) (power_spectrum : List (α × α))
    (firstwav : Int) : Option (Int × Int) := do
  let c0 ← readRow cie_color_match 0
  let p0 ← readRow power_spectrum 0
  pure (c_trunc ((firstwav : α) - c0.1), c_trunc ((firstwav : α) - p0.1))

/-- The normalisation loop of `main` (lines 454-457):
`for( k=0; k<=830-firstwav; k++ ) norm += cie_color_match[tr+k][2] * power_spectrum[te+k][1];`
The loop runs `831 - firstwav` times, and not at all when `firstwav > 830`. -/
def CIE_norm {α : Type} [LinearOrderedField α]
    (cie_color_match : List (α × α × α × α)) (power_spectrum : List (α × α))
    (firstwav tr te : Int) : Option α :=
  (List.range (831 - firstwav).toNat).foldlM
    (fun (norm : α) (k : Nat) => do
      let c ← readRow cie_color_match (tr + k)
      let p ← readRow power_spectrum (te + k)
      pure (norm + c.2.2.1 * p.2))
    0.0

/-- The value that the pixel loop multiplies into `X`, `Y` and `Z`
(lines 589-590): `val = gsl_spline_eval(spline, k+firstwav, acc);
if( val < 0 ) val = 0.0;`. -/
def resampled {α : Type} [LinearOrderedField α] (spline_eval : α → α)
    (firstwav : Int) (k : Nat) : α :=
  let val := spline_eval ((((k : Int) + firstwav : Int)) : α)
  if val < 0 then 0.0 else val

/-- The accumulation loop of one pixel (lines 582-595); the result is the
triple of sums `(X, Y, Z)` before normalisation. -/
def pixel_sums {α : Type} [LinearOrderedField α]
    (cie_color_match : List (α × α × α × α)) (power_spectrum : List (α × α))
    (firstwav tr te : Int) (spline_eval : α → α) : Option (α × α × α) :=
  (List.range (831 - firstwav).toNat).foldlM
    (fun (acc : α × α × α) (k : Nat) => do
      let val := resampled spline_eval firstwav k
      let c ← readRow cie_color_match (tr + k)
      let p ← readRow power_spectrum (te + k)
      pure (acc.1 + val * c.2.1 * p.2, acc.2.1 + val * c.2.2.1 * p.2,
        acc.2.2 + val * c.2.2.2 * p.2))
    (0.0, 0.0, 0.0)

/-- The tristimulus `(XX, YY, ZZ)` of one pixel as `main` computes it: the
offsets and `norm` of lines 448-457, the sums of lines 582-595 and the
normalisation `(X * 100.0) / (norm)` of lines 604-606.  Nothing tests `norm`
before the division; the result is `none` only when a table read is out of
bounds. -/
def render_XYZ {α : Type} [LinearOrderedField α] [FloorRing α]
    (cie_color_match : List (α × α × α × α)) (power_spectrum : List (α × α))
    (firstwav : Int) (spline_eval : α → α) : Option (α × α × α) := do
  let (tr, te) ← table_offsets cie_color_match power_spectrum firstwav
  let norm ← CIE_norm cie_color_match power_spectrum firstwav tr te
  let (X, Y, Z) ← pixel_sums cie_color_match power_spectrum firstwav tr te spline_eval
  pure ((X * 100.0) / norm, (Y * 100.0) / norm, (Z * 100.0) / norm)

/-! ## hyper2color.c: the pixel spectrum and its interpolant -/

/-- Line 570: `n = i + header.samples*k`, the index of band `k` of pixel `i` in
the scanline buffer. -/
def spectrum_index (samples i k : Nat) : Nat := i + samples * k

/-- Lines 571-572: the value written to `spectrum[k]` for the raw sample `raw`:
`(double)raw / 65535.0` when `header.bpp == 2`, `(double)raw` otherwise. -/
def normalized_intensity {α : Type} [LinearOrderedField α] (bpp raw : Nat) : α :=
  if bpp = 2 then (raw : α) / 65535.0 else (raw : α)

/-- The loop of lines 569-573 that extracts the spectrum of pixel `i` from the
scanline buffer filled by `load_hyspex_bil`; `none` when a read is outside the
buffer or when the band index is outside `double spectrum[320]` (line 431). -/
def extract_spectrum {α : Type} [LinearOrderedField α] (scanline_spectrum : List Nat)
    (samples bands bpp i : Nat) : Option (List α) :=
  (List.range bands).mapM fun (k : Nat) =>
    if k < 320 then
      (scanline_spectrum[spectrum_index samples i k]?).map fun raw =>
        normalized_intensity bpp raw
    else none

/-- The interpolation types of GSL that the program names. -/
inductive gsl_interp_type where
  | gsl_interp_linear : gsl_interp_type
  | gsl_interp_cspline : gsl_interp_type
  deriving DecidableEq, Repr

/-- The interpolation type that the pixel loop of `main` passes to
`gsl_spline_alloc` (line 578): `gsl_interp_linear`, whatever `header.bands` is. -/
def main_interp_type (_bands : Nat) : gsl_interp_type := gsl_interp_type.gsl_interp_linear

/-- The interpolation type that the function `calculate_XYZ` passes to
`gsl_spline_alloc` (line 113); `main` never calls this function. -/
def calculate_XYZ_interp_type (_bands : Nat) : gsl_interp_type :=
  gsl_interp_type.gsl_interp_cspline

/-- The interpolant of one pixel in `main` (lines 577-579 and 589): the spline
that the GSL library, a parameter here, fits for the requested type through the
samples `(wavelengths[k], spectrum[k])`, `k < bands`. -/
def pixel_spline {α : Type} (gsl_spline : gsl_interp_type → List α → List α → Nat → α → α)
    (wavelengths spectrum : List α) (bands : Nat) : α → α :=
  gsl_spline (main_interp_type bands) wavelengths spectrum bands

/-- The argument `k+firstwav` at which the pixel loop evaluates the interpolant
(line 589). -/
def spline_argument (firstwav : Int) (k : Nat) : Int := (k : Int) + firstwav

/-! ## Rounding to double precision

The products of the L*a*b* quantizer are formed in `double`, and the literals
`2.55` and `655.35` are not doubles themselves, so here the rounding is part of
the embedding. -/

/-- The binade of a non-zero number `x`: the `k` with `2^k ≤ |x| < 2^(k+1)`. -/
def binade {α : Type} [LinearOrderedField α] [FloorRing α] (x : α) : Int := Int.log 2 |x|

/-- Rounding to the nearest integer, ties to the even one. -/
def round_half_even {α : Type} [LinearOrderedField α] [FloorRing α] (y : α) : Int :=
  if y - (⌊y⌋ : α) < 1 / 2 then ⌊y⌋
  else if 1 / 2 < y - (⌊y⌋ : α) then ⌊y⌋ + 1
  else if ⌊y⌋ % 2 = 0 then ⌊y⌋ else ⌊y⌋ + 1

/-- The `double` nearest to `x`, ties to even: 53 significant bits.  Overflow
and subnormal numbers are not modelled. -/
def round_double {α : Type} [LinearOrderedField α] [FloorRing α] (x : α) : α :=
  if x = 0 then 0
  else (round_half_even (x / (2 : α) ^ (binade x - 52)) : α) * (2 : α) ^ (binade x - 52)

/-! ## hyper2color.c: the quantizer -/

/-- A sample as it is stored in `calculated_color`: a `float`, an
`unsigned short` or an `unsigned char`. -/
inductive Stored (α : Type) where
  | f32 : α → Stored α
  | u16 : Int → Stored α
  | u8 : Int → Stored α

/-- The cast `(unsigned char)x` of a floating value: truncation, then the value
modulo 256 when it does not fit. -/
def to_uchar {α : Type} [LinearOrderedField α] [FloorRing α] (x : α) : Int :=
  c_trunc x % 256

/-- The cast `(unsigned short)x` of a floating value. -/
def to_ushort {α : Type} [LinearOrderedField α] [FloorRing α] (x : α) : Int :=
  c_trunc x % 65536

/-- The cast `(signed char)x` of a floating value: truncation, then wrapping
into `[-128, 127]` when it does not fit. -/
def to_schar {α : Type} [LinearOrderedField α] [FloorRing α] (x : α) : Int :=
  (c_trunc x + 128) % 256 - 128

/-- The cast `(signed short)x` of a floating value. -/
def to_sshort {α : Type} [LinearOrderedField α] [FloorRing α] (x : α) : Int :=
  (c_trunc x + 32768) % 65536 - 32768

/-- The RGB quantizer of the pixel loop (lines 629-643). -/
def quantize_RGB {α : Type} [LinearOrderedField α] [FloorRing α] (bits_per_sample : Int)
    (R G B : α) : Stored α × Stored α × Stored α :=
  if bits_per_sample = 32 then
    (Stored.f32 R, Stored.f32 G, Stored.f32 B)
  else if bits_per_sample = 16 then
    (Stored.u16 (to_ushort (R * 65535.0)), Stored.u16 (to_ushort (G * 65535.0)),
      Stored.u16 (to_ushort (B * 65535.0)))
  else
    (Stored.u8 (to_uchar (R * 255.0)), Stored.u8 (to_uchar (G * 255.0)),
      Stored.u8 (to_uchar (B * 255.0)))

/-- The product `x * c` of a `float` `x` and a `double` literal `c` as C forms
it: the literal is the double nearest to `c`, and the product is rounded to
double as well. -/
def mul_double {α : Type} [LinearOrderedField α] [FloorRing α] (x c : α) : α :=
  round_double (x * round_double c)

/-- The CIE L*a*b* quantizer of the pixel loop (lines 651-665), its products
formed in `double`.  The signed values of `a` and `b` are assigned to elements
of an unsigned array, which keeps them modulo 256 or 65536 (their two's
complement pattern). -/
def quantize_LAB {α : Type} [LinearOrderedField α] [FloorRing α] (bits_per_sample : Int)
    (L a b : α) : Stored α × Stored α × Stored α :=
  if bits_per_sample = 8 then
    (Stored.u8 (to_uchar (mul_double L 2.55)), Stored.u8 (to_schar a % 256),
      Stored.u8 (to_schar b % 256))
  else if bits_per_sample = 16 then
    (Stored.u16 (to_ushort (mul_double L 655.35)),
      Stored.u16 (to_sshort (mul_double a 255.0) % 65536),
      Stored.u16 (to_sshort (mul_double b 255.0) % 65536))
  else
    (Stored.f32 L, Stored.f32 a, Stored.f32 b)

/-! ## Floating values with the special values of IEEE 754

The range claims on the colour conversions are about every value a C `float`
can hold, so for them the conversions are embedded a second time over
`CFloat α`: a number, an infinity or NaN.  Rounding and the sign of zero are
not modelled; a zero divisor counts as `+0`. -/

/-- A C floating value: a number, `inf false` for `+∞`, `inf true` for `-∞`, or
NaN. -/
inductive CFloat (α : Type) where
  | num : α → CFloat α
  | inf : Bool → CFloat α
  | nan : CFloat α

/-- IEEE negation. -/
def CFloat.neg {α : Type} [LinearOrderedField α] : CFloat α → CFloat α
  | CFloat.num x => CFloat.num (-x)
  | CFloat.inf s => CFloat.inf (!s)
  | CFloat.nan => CFloat.nan

/-- IEEE addition: `∞ + (-∞)` and every sum with NaN are NaN. -/
def CFloat.add {α : Type} [LinearOrderedField α] : CFloat α → CFloat α → CFloat α
  | CFloat.num x, CFloat.num y => CFloat.num (x + y)
  | CFloat.num _, CFloat.inf s => CFloat.inf s
  | CFloat.inf s, CFloat.num _ => CFloat.inf s
  | CFloat.inf s, CFloat.inf t => if s = t then CFloat.inf s else CFloat.nan
  | CFloat.nan, _ => CFloat.nan
  | _, CFloat.nan => CFloat.nan

/-- IEEE subtraction. -/
def CFloat.sub {α : Type} [LinearOrderedField α] (a b : CFloat α) : CFloat α :=
  CFloat.add a (CFloat.neg b)

/-- IEEE multiplication: `0 * ∞` and every product with NaN are NaN. -/
def CFloat.mul {α : Type} [LinearOrderedField α] : CFloat α → CFloat α → CFloat α
  | CFloat.num x, CFloat.num y => CFloat.num (x * y)
  | CFloat.num x, CFloat.inf s =>
      if x = 0 then CFloat.nan else CFloat.inf (if x < 0 then !s else s)
  | CFloat.inf s, CFloat.num y =>
      if y = 0 then CFloat.nan else CFloat.inf (if y < 0 then !s else s)
  | CFloat.inf s, CFloat.inf t => CFloat.inf (if t then !s else s)
  | CFloat.nan, _ => CFloat.nan
  | _, CFloat.nan => CFloat.nan

/-- IEEE division: `0 / 0`, `∞ / ∞` and every quotient with NaN are NaN, a
non-zero number over zero is an infinity. -/
def CFloat.div {α : Type} [LinearOrderedField α] : CFloat α → CFloat α → CFloat α
  | CFloat.num x, CFloat.num y =>
      if y = 0 then (if x = 0 then CFloat.nan else CFloat.inf (decide (x < 0)))
      else CFloat.num (x / y)
  | CFloat.num _, CFloat.inf _ => CFloat.num 0
  | CFloat.inf s, CFloat.num y => CFloat.inf (if y < 0 then !s else s)
  | CFloat.inf _, CFloat.inf _ => CFloat.nan
  | CFloat.nan, _ => CFloat.nan
  | _, CFloat.nan => CFloat.nan

/-- The comparison `a <= b` of C: false as soon as an operand is NaN. -/
def CFloat.le {α : Type} [LinearOrderedField α] : CFloat α → CFloat α → Bool
  | CFloat.num x, CFloat.num y => decide (x ≤ y)
  | CFloat.num _, CFloat.inf s => !s
  | CFloat.inf s, CFloat.num _ => s
  | CFloat.inf s, CFloat.inf t => s || !t
  | CFloat.nan, _ => false
  | _, CFloat.nan => false

/-- The comparison `a < b` of C: false as soon as an operand is NaN. -/
def CFloat.lt {α : Type} [LinearOrderedField α] : CFloat α → CFloat α → Bool
  | CFloat.num x, CFloat.num y => decide (x < y)
  | CFloat.num _, CFloat.inf s => !s
  | CFloat.inf s, CFloat.num _ => s
  | CFloat.inf s, CFloat.inf t => s && !t
  | CFloat.nan, _ => false
  | _, CFloat.nan => false

/-- The function `powf(x, e)` of `libm` for an exponent `e` that is positive and
not an integer, as both exponents of `color.c` are: NaN for NaN and for a
negative number, `+∞` for an infinity. -/
def powf_ieee {α : Type} [LinearOrderedField α] (powf : α → α → α) (x : CFloat α) (e : α) :
    CFloat α :=
  match x with
  | CFloat.num v => if v < 0 then CFloat.nan else CFloat.num (powf v e)
  | CFloat.inf _ => CFloat.inf false
  | CFloat.nan => CFloat.nan

/-- The function `cbrtf` of `libm`: it keeps infinities and NaN. -/
def cbrtf_ieee {α : Type} (cbrtf : α → α) (x : CFloat α) : CFloat α :=
  match x with
  | CFloat.num v => CFloat.num (cbrtf v)
  | CFloat.inf s => CFloat.inf s
  | CFloat.nan => CFloat.nan

/-- The clip `(x <= 0.0 ? 0.0 : x >= hi ? hi : x)` of `color.c` on floating
values. -/
def clip_ieee {α : Type} [LinearOrderedField α] (hi : α) (x : CFloat α) : CFloat α :=
  if CFloat.le x (CFloat.num 0.0) then CFloat.num 0.0
  else if CFloat.le (CFloat.num hi) x then CFloat.num hi
  else x

/-- The branches of `XYZ2LAB` on floating values:
`if ( v > 0.008856 ) v = cbrtf(v); else v = ( 7.787 * v ) + ( 16.0 / 116.0 );` -/
def lab_f_ieee {α : Type} [LinearOrderedField α] (cbrtf : α → α) (v : CFloat α) : CFloat α :=
  if CFloat.lt (CFloat.num 0.008856) v then cbrtf_ieee cbrtf v
  else CFloat.add (CFloat.mul (CFloat.num 7.787) v) (CFloat.num (16.0 / 116.0))

/-- The function `XYZ2LAB` of `color.c` on floating values. -/
def XYZ2LAB_ieee {α : Type} [LinearOrderedField α] (cbrtf : α → α) (X Y Z : CFloat α) :
    CFloat α × CFloat α × CFloat α :=
  let var_X := lab_f_ieee cbrtf (CFloat.div X (CFloat.num X_D65))
  let var_Y := lab_f_ieee cbrtf (CFloat.div Y (CFloat.num Y_D65))
  let var_Z := lab_f_ieee cbrtf (CFloat.div Z (CFloat.num Z_D65))
  let L := CFloat.sub (CFloat.mul (CFloat.num 116.0) var_Y) (CFloat.num 16.0)
  let a := CFloat.mul (CFloat.num 500.0) (CFloat.sub var_X var_Y)
  let b := CFloat.mul (CFloat.num 200.0) (CFloat.sub var_Y var_Z)
  (clip_ieee 100.0 L, a, b)

/-- The function `_sRGB_Gamma` of `color.c` on floating values. -/
def _sRGB_Gamma_ieee {α : Type} [LinearOrderedField α] (powf : α → α → α) (c : CFloat α) :
    CFloat α :=
  let alpha : α := 0.055
  if CFloat.le c (CFloat.num 0.0031308) then CFloat.mul (CFloat.num 12.92) c
  else
    CFloat.sub (CFloat.mul (CFloat.num (1 + alpha)) (powf_ieee powf c (1 / 2.4)))
      (CFloat.num alpha)

/-- The function `sRGB_Gamma` of `color.c` on floating values. -/
def sRGB_Gamma_ieee {α : Type} [LinearOrderedField α] (powf : α → α → α)
    (RGB : CFloat α × CFloat α × CFloat α) : CFloat α × CFloat α × CFloat α :=
  (_sRGB_Gamma_ieee powf RGB.1, _sRGB_Gamma_ieee powf RGB.2.1, _sRGB_Gamma_ieee powf RGB.2.2)

/-- The function `AdobeRGB_Gamma` of `color.c` on floating values. -/
def AdobeRGB_Gamma_ieee {α : Type} [LinearOrderedField α] (powf : α → α → α)
    (RGB : CFloat α × CFloat α × CFloat α) : CFloat α × CFloat α × CFloat α :=
  let gamma : α := 256.0 / 563.0
  (powf_ieee powf RGB.1 gamma, powf_ieee powf RGB.2.1 gamma, powf_ieee powf RGB.2.2 gamma)

/-- The function `XYZ2RGB` of `color.c` on floating values. -/
def XYZ2RGB_ieee {α : Type} [LinearOrderedField α] (matrix : Matrix3 α) (X Y Z : CFloat α) :
    CFloat α × CFloat α × CFloat α :=
  let X := CFloat.div X (CFloat.num 100.0)
  let Y := CFloat.div Y (CFloat.num 100.0)
  let Z := CFloat.div Z (CFloat.num 100.0)
  let r := CFloat.add (CFloat.add (CFloat.mul X (CFloat.num (matrix 0 0)))
    (CFloat.mul Y (CFloat.num (matrix 0 1)))) (CFloat.mul Z (CFloat.num (matrix 0 2)))
  let g := CFloat.add (CFloat.add (CFloat.mul X (CFloat.num (matrix 1 0)))
    (CFloat.mul Y (CFloat.num (matrix 1 1)))) (CFloat.mul Z (CFloat.num (matrix 1 2)))
  let b := CFloat.add (CFloat.add (CFloat.mul X (CFloat.num (matrix 2 0)))
    (CFloat.mul Y (CFloat.num (matrix 2 1)))) (CFloat.mul Z (CFloat.num (matrix 2 2)))
  (clip_ieee 1.0 r, clip_ieee 1.0 g, clip_ieee 1.0 b)

/-- The `colorspace == PHOTOMETRIC_RGB` branch of the pixel loop of `main`
(lines 611-627) on floating values. -/
def render_RGB_ieee {α : Type} [LinearOrderedField α] (powf : α → α → α)
    (icc_profile : Nat) (temperature : Int) (XX YY ZZ : CFloat α) :
    CFloat α × CFloat α × CFloat α :=
  if icc_profile = 2 then
    AdobeRGB_Gamma_ieee powf
      (if temperature = 5000 then XYZ2RGB_ieee XYZ_AdobeRGB_matrix_D50 XX YY ZZ
       else XYZ2RGB_ieee XYZ_AdobeRGB_matrix_D65 XX YY ZZ)
  else
    sRGB_Gamma_ieee powf
      (if temperature = 5000 then XYZ2RGB_ieee XYZ_sRGB_matrix_D50 XX YY ZZ
       else XYZ2RGB_ieee XYZ_sRGB_matrix_D65 XX YY ZZ)

/-- The tristimulus `(XX, YY, ZZ)` of one pixel as `main` computes it, with the
division `(X * 100.0) / (norm)` of lines 604-606 as an IEEE division: for
`norm = 0` it gives NaN or an infinity.  Everything before the division is as
in `render_XYZ`. -/
def render_XYZ_ieee {α : Type} [LinearOrderedField α] [FloorRing α]
    (cie_color_match : List (α × α × α × α)) (power_spectrum : List (α × α))
    (firstwav : Int) (spline_eval : α → α) : Option (CFloat α × CFloat α × CFloat α) := do
  let (tr, te) ← table_offsets cie_color_match power_spectrum firstwav
  let norm ← CIE_norm cie_color_match power_spectrum firstwav tr te
  let (X, Y, Z) ← pixel_sums cie_color_match power_spectrum firstwav tr te spline_eval
  pure (CFloat.div (CFloat.num (X * 100.0)) (CFloat.num norm),
    CFloat.div (CFloat.num (Y * 100.0)) (CFloat.num norm),
    CFloat.div (CFloat.num (Z * 100.0)) (CFloat.num norm))

/-! ## The tables and the tristimulus sums as the specification words them -/

/-- Modelled from the spec: the static table `cie_color_match` of
`CIE-tristimulus.c` is not part of the sources at hand.  The specification
describes it as an ordered table of `(wavelength_nm, x, y, z)` for 360-830 nm
with a 1 nm step: 471 rows, row `i` for the wavelength `360 + i`. -/
def ObserverTable {α : Type} [LinearOrderedField α] (cie : List (α × α × α × α)) : Prop :=
  cie.length = 471 ∧ ∀ i : Nat, i < 471 → (cie[i]?).map (fun r => r.1) = some (360 + (i : α))

/-- An illuminant table as the specification describes it and as
`load_power_spectrum` builds it: `(wavelength_nm, power)` for 300-830 nm with a
1 nm step, 531 rows, row `i` for the wavelength `300 + i`. -/
def IlluminantTable {α : Type} [LinearOrderedField α] (pw : List (α × α)) : Prop :=
  pw.length = 531 ∧ ∀ i : Nat, i < 531 → (pw[i]?).map (fun r => r.1) = some (300 + (i : α))

/-- The row of the observer table whose wavelength column equals `wl`. -/
def observer_at {α : Type} [LinearOrderedField α] (cie : List (α × α × α × α)) (wl : Int) :
    Option (α × α × α × α) :=
  cie.find? fun r => decide (r.1 = (wl : α))

/-- The row of the illuminant table whose wavelength column equals `wl`. -/
def illuminant_at {α : Type} [LinearOrderedField α] (pw : List (α × α)) (wl : Int) :
    Option (α × α) :=
  pw.find? fun r => decide (r.1 = (wl : α))

/-- The colour matching value x̄(λ): column 1 of the observer row for `wl`
(0 when the table has no such row). -/
def xbar {α : Type} [LinearOrderedField α] (cie : List (α × α × α × α)) (wl : Int) : α :=
  ((observer_at cie wl).map fun r => r.2.1).getD 0

/-- The colour matching value ȳ(λ): column 2 of the observer row for `wl`. -/
def ybar {α : Type} [LinearOrderedField α] (cie : List (α × α × α × α)) (wl : Int) : α :=
  ((observer_at cie wl).map fun r => r.2.2.1).getD 0

/-- The colour matching value z̄(λ): column 3 of the observer row for `wl`. -/
def zbar {α : Type} [LinearOrderedField α] (cie : List (α × α × α × α)) (wl : Int) : α :=
  ((observer_at cie wl).map fun r => r.2.2.2).getD 0

/-- The illuminant power I(λ): column 1 of the illuminant row for `wl`. -/
def illuminant_power {α : Type} [LinearOrderedField α] (pw : List (α × α)) (wl : Int) : α :=
  ((illuminant_at pw wl).map fun r => r.2).getD 0

/-- The normalisation constant of the specification: `N = Σ ȳ(λ)·I(λ)` over
every integer λ from `firstwav` to 830. -/
def spec_N {α : Type} [LinearOrderedField α] (cie : List (α × α × α × α)) (pw : List (α × α))
    (firstwav : Int) : α :=
  ∑ wl ∈ Finset.Icc firstwav 830, ybar cie wl * illuminant_power pw wl

/-- The tristimulus of the specification:
`X = 100·Σ max(S(λ),0)·x̄(λ)·I(λ) / N`, likewise `Y` with ȳ and `Z` with z̄, the
sums over every integer λ from `firstwav` to 830. -/
def spec_XYZ {α : Type} [LinearOrderedField α] (cie : List (α × α × α × α)) (pw : List (α × α))
    (firstwav : Int) (S : α → α) : α × α × α :=
  (100 * (∑ wl ∈ Finset.Icc firstwav 830,
      max (S (wl : α)) 0 * xbar cie wl * illuminant_power pw wl) / spec_N cie pw firstwav,
   100 * (∑ wl ∈ Finset.Icc firstwav 830,
      max (S (wl : α)) 0 * ybar cie wl * illuminant_power pw wl) / spec_N cie pw firstwav,
   100 * (∑ wl ∈ Finset.Icc firstwav 830,
      max (S (wl : α)) 0 * zbar cie wl * illuminant_power pw wl) / spec_N cie pw firstwav)

/-! ## Sample tables -/

/-- A sample observer table of 471 rows for 360-830 nm with constant colour
matching values `(x, y, z)`. -/
def sample_observer {α : Type} [LinearOrderedField α] (x y z : α) : List (α × α × α × α) :=
  (List.range 471).map fun (i : Nat) => ((360 : α) + (i : α), x, y, z)

/-- A sample illuminant table of 531 rows for 300-830 nm with constant power `p`. -/
def sample_illuminant {α : Type} [LinearOrderedField α] (p : α) : List (α × α) :=
  (List.range 531).map fun (i : Nat) => ((300 : α) + (i : α), p)

/-! ## Lemmas on the clip -/

theorem clip_nonneg {α : Type} [LinearOrderedField α] (hi x : α) (hhi : 0 ≤ hi) :
    0 ≤ clip hi x := by
  unfold clip
  split_ifs with h1 h2
  · norm_num
  · exact hhi
  · norm_num at h1
    exact h1.le

theorem clip_le {α : Type} [LinearOrderedField α] (hi x : α) (hhi : 0 ≤ hi) :
    clip hi x ≤ hi := by
  unfold clip
  split_ifs with h1 h2
  · norm_num
    exact hhi
  · exact le_refl hi
  · exact (not_le.mp h2).le

theorem XYZ2RGB_range {α : Type} [LinearOrderedField α] (m : Matrix3 α) (X Y Z : α) :
    (0 ≤ (XYZ2RGB m X Y Z).1 ∧ (XYZ2RGB m X Y Z).1 ≤ 1) ∧
    (0 ≤ (XYZ2RGB m X Y Z).2.1 ∧ (XYZ2RGB m X Y Z).2.1 ≤ 1) ∧
    (0 ≤ (XYZ2RGB m X Y Z).2.2 ∧ (XYZ2RGB m X Y Z).2.2 ≤ 1) := by
  have h1 : (0 : α) ≤ 1.0 := by norm_num
  have e1 : (1.0 : α) = 1 := by norm_num
  simp only [XYZ2RGB]
  refine ⟨⟨clip_nonneg _ _ h1, ?_⟩, ⟨clip_nonneg _ _ h1, ?_⟩, ⟨clip_nonneg _ _ h1, ?_⟩⟩ <;>
    exact (clip_le _ _ h1).trans e1.le


/-! ## Lemmas for the colour conversions over the reals -/

theorem sRGB_Gamma_real_range (c : ℝ) (h0 : 0 ≤ c) (h1 : c ≤ 1) :
    0 ≤ _sRGB_Gamma (fun x e : ℝ => x ^ e) c ∧ _sRGB_Gamma (fun x e : ℝ => x ^ e) c ≤ 1 := by
  unfold _sRGB_Gamma
  simp only
  split_ifs with h
  · constructor
    · positivity
    · norm_num at h ⊢
      linarith
  · have hc : (0.0031308 : ℝ) < c := not_le.mp h
    have hpos : 0 < c := lt_trans (by norm_num) hc
    have hup : c ^ ((1 : ℝ) / 2.4) ≤ 1 := Real.rpow_le_one h0 h1 (by norm_num)
    have hsq : c ^ ((1 : ℝ) / 2) ≤ c ^ ((1 : ℝ) / 2.4) :=
      Real.rpow_le_rpow_of_exponent_ge hpos h1 (by norm_num)
    have hlow : (0.0559 : ℝ) ≤ c ^ ((1 : ℝ) / 2) := by
      rw [← Real.sqrt_eq_rpow]
      apply Real.le_sqrt_of_sq_le
      norm_num at hc ⊢
      linarith
    constructor
    · norm_num at hlow hsq ⊢
      linarith
    · norm_num at hup ⊢
      linarith

theorem AdobeRGB_pow_real_range (c : ℝ) (h0 : 0 ≤ c) (h1 : c ≤ 1) :
    0 ≤ c ^ ((256.0 : ℝ) / 563.0) ∧ c ^ ((256.0 : ℝ) / 563.0) ≤ 1 :=
  ⟨Real.rpow_nonneg h0 _, Real.rpow_le_one h0 h1 (by norm_num)⟩

theorem XYZ2RGB_sRGB_D65_white :
    XYZ2RGB (XYZ_sRGB_matrix_D65 : Matrix3 ℝ) 95.047 100.0 108.88 =
      (1, 12499867781 / 12500000000, 1) := by
  simp only [XYZ2RGB, XYZ_sRGB_matrix_D65, clip, Matrix.cons_val_zero, Matrix.cons_val_one,
    Matrix.head_cons, Matrix.cons_val_two, Matrix.tail_cons]
  norm_num

theorem sRGB_Gamma_real_one : _sRGB_Gamma (fun x e : ℝ => x ^ e) 1 = 1 := by
  unfold _sRGB_Gamma
  norm_num

/-- Above the linear segment and up to 1 the sRGB transfer function lies
between `1.055 * c - 0.055` and `1`. -/
theorem sRGB_Gamma_real_near_one (c : ℝ) (h0 : 0.0031308 < c) (h1 : c ≤ 1) :
    1.055 * c - 0.055 ≤ _sRGB_Gamma (fun x e : ℝ => x ^ e) c ∧
      _sRGB_Gamma (fun x e : ℝ => x ^ e) c ≤ 1 := by
  have hpos : 0 < c := lt_trans (by norm_num) h0
  have hup : c ^ ((1 : ℝ) / 2.4) ≤ 1 := Real.rpow_le_one hpos.le h1 (by norm_num)
  have hlo : c ^ (1 : ℝ) ≤ c ^ ((1 : ℝ) / 2.4) :=
    Real.rpow_le_rpow_of_exponent_ge hpos h1 (by norm_num)
  rw [Real.rpow_one] at hlo
  unfold _sRGB_Gamma
  simp only
  rw [if_neg (not_le.mpr h0)]
  constructor
  · norm_num at hlo ⊢
    linarith
  · norm_num at hup ⊢
    linarith

/-- For a non-negative ratio the branch function of `XYZ2LAB` lies in
`[16/116, 1]` as long as the ratio does not exceed 1. -/
theorem lab_f_real_range (v : ℝ) (h0 : 0 ≤ v) (h1 : v ≤ 1) :
    16 / 116 ≤ lab_f (fun x : ℝ => x ^ ((1 : ℝ) / 3)) v ∧
      lab_f (fun x : ℝ => x ^ ((1 : ℝ) / 3)) v ≤ 1 := by
  unfold lab_f
  split_ifs with h
  · have hv : (0.008856 : ℝ) < v := h
    have hup : v ^ ((1 : ℝ) / 3) ≤ 1 := Real.rpow_le_one h0 h1 (by norm_num)
    have hbase : ((16 : ℝ) / 116) ^ (3 : ℕ) ≤ v := by
      norm_num at hv ⊢
      linarith
    have hmono : (((16 : ℝ) / 116) ^ (3 : ℕ)) ^ ((1 : ℝ) / 3) ≤ v ^ ((1 : ℝ) / 3) :=
      Real.rpow_le_rpow (by positivity) hbase (by norm_num)
    have hroot : (((16 : ℝ) / 116) ^ (3 : ℕ)) ^ ((1 : ℝ) / 3) = 16 / 116 := by
      rw [← Real.rpow_natCast, ← Real.rpow_mul (by norm_num)]
      norm_num
    rw [hroot] at hmono
    exact ⟨hmono, hup⟩
  · have hv : v ≤ 0.008856 := not_lt.mp h
    constructor
    · norm_num
      linarith
    · norm_num at hv ⊢
      linarith

theorem lab_f_real_one : lab_f (fun x : ℝ => x ^ ((1 : ℝ) / 3)) 1 = 1 := by
  unfold lab_f
  norm_num

theorem lab_f_real_zero : lab_f (fun x : ℝ => x ^ ((1 : ℝ) / 3)) 0 = 16 / 116 := by
  unfold lab_f
  norm_num

/-! ## Lemmas on table reads and loops -/

theorem readRow_natCast {ρ : Type} (table : List ρ) (i : Nat) :
    readRow table (i : Int) = table[i]? := by
  unfold readRow
  rw [if_neg (not_lt.mpr (Int.natCast_nonneg i)), Int.toNat_natCast]

theorem c_trunc_intCast {α : Type} [LinearOrderedField α] [FloorRing α] (z : Int) :
    c_trunc (z : α) = z := by
  unfold c_trunc
  split_ifs
  · exact Int.floor_intCast z
  · exact Int.ceil_intCast z

theorem mapM_option_eq_some_map {ι β : Type} (f : ι → Option β) (g : ι → β) (l : List ι)
    (h : ∀ x ∈ l, f x = some (g x)) : l.mapM f = some (l.map g) := by
  induction l with
  | nil => rfl
  | cons a t ih =>
    rw [List.mapM_cons, h a (List.mem_cons_self a t),
      ih (fun x hx => h x (List.mem_cons_of_mem a hx))]
    rfl

/-- A loop over `0 .. n-1` whose reads all succeed is a plain fold. -/
theorem foldlM_range_eq_some {β : Type} (step : β → Nat → Option β) (pstep : β → Nat → β)
    (n : Nat) (h : ∀ k, k < n → ∀ b, step b k = some (pstep b k)) (b0 : β) :
    (List.range n).foldlM step b0 = some ((List.range n).foldl pstep b0) := by
  induction n with
  | zero => rfl
  | succ m ih =>
    have ih2 := ih (fun k hk b => h k (Nat.lt_succ_of_lt hk) b)
    rw [List.range_succ, List.foldlM_append, ih2, List.foldl_append]
    simp only [List.foldlM_cons, List.foldlM_nil, List.foldl_cons, List.foldl_nil,
      Option.some_bind, Option.bind_eq_bind]
    rw [h m (Nat.lt_succ_self m)]
    rfl

theorem foldl_range_add {α : Type} [LinearOrderedField α] (t : Nat → α) (n : Nat) (a0 : α) :
    (List.range n).foldl (fun acc k => acc + t k) a0 = a0 + ∑ k ∈ Finset.range n, t k := by
  induction n with
  | zero => simp
  | succ m ih =>
    rw [List.range_succ, List.foldl_append, ih, Finset.sum_range_succ]
    simp only [List.foldl_cons, List.foldl_nil]
    ring

theorem foldl_range_add3 {α : Type} [LinearOrderedField α] (t1 t2 t3 : Nat → α) (n : Nat)
    (a0 : α × α × α) :
    (List.range n).foldl (fun acc k => (acc.1 + t1 k, acc.2.1 + t2 k, acc.2.2 + t3 k)) a0 =
      (a0.1 + ∑ k ∈ Finset.range n, t1 k, a0.2.1 + ∑ k ∈ Finset.range n, t2 k,
        a0.2.2 + ∑ k ∈ Finset.range n, t3 k) := by
  induction n with
  | zero => simp
  | succ m ih =>
    rw [List.range_succ, List.foldl_append, ih]
    simp only [List.foldl_cons, List.foldl_nil, Finset.sum_range_succ]
    refine Prod.ext ?_ (Prod.ext ?_ ?_) <;> simp only <;> ring

/-- A sum over the integer wavelengths `a .. 830` is a sum over the loop
counter `k = 0 .. 830 - a`. -/
theorem sum_Icc_eq_sum_range {α : Type} [LinearOrderedField α] (f : Int → α) (a : Int) :
    ∑ wl ∈ Finset.Icc a 830, f wl = ∑ k ∈ Finset.range (831 - a).toNat, f (a + (k : Int)) := by
  rw [Int.Icc_eq_finset_map, Finset.sum_map]
  have e : (830 + 1 - a : Int) = 831 - a := by ring
  rw [e]
  rfl

/-- In a list whose element `n` satisfies `p` and whose earlier elements do not,
`find?` returns element `n`. -/
theorem find?_eq_of_first {ρ : Type} (p : ρ → Bool) (l : List ρ) (n : Nat) (r : ρ)
    (hn : l[n]? = some r) (hp : p r = true)
    (hlt : ∀ j, j < n → ∀ s, l[j]? = some s → p s = false) : l.find? p = some r := by
  induction l generalizing n with
  | nil => simp at hn
  | cons a t ih =>
    cases n with
    | zero =>
      simp only [List.getElem?_cons_zero, Option.some.injEq] at hn
      subst hn
      simp [List.find?_cons, hp]
    | succ m =>
      have ha : p a = false := hlt 0 (Nat.succ_pos m) a (by simp)
      rw [List.find?_cons, ha]
      simp only [List.getElem?_cons_succ] at hn
      exact ih m hn (fun j hj s hs => hlt (j + 1) (Nat.succ_lt_succ hj) s (by simpa using hs))

/-! ## Lemmas on well-formed tables -/

theorem observer_row {α : Type} [LinearOrderedField α] (cie : List (α × α × α × α))
    (hcie : ObserverTable cie) (i : Nat) (hi : i < 471) :
    ∃ r, cie[i]? = some r ∧ r.1 = 360 + (i : α) ∧ observer_at cie (360 + (i : Int)) = some r := by
  have hrow : ∀ j : Nat, j < 471 → ∃ s, cie[j]? = some s ∧ s.1 = 360 + (j : α) := by
    intro j hj
    have h := hcie.2 j hj
    rw [Option.map_eq_some'] at h
    exact h
  obtain ⟨r, hr, hr1⟩ := hrow i hi
  refine ⟨r, hr, hr1, ?_⟩
  unfold observer_at
  apply find?_eq_of_first _ cie i r hr
  · simp only [decide_eq_true_eq, hr1]
    push_cast
    rfl
  · intro j hj s hs
    obtain ⟨s2, hs2, hs21⟩ := hrow j (lt_trans hj hi)
    rw [hs] at hs2
    cases hs2
    simp only [decide_eq_false_iff_not, hs21]
    push_cast
    intro h
    have h2 : (j : α) = (i : α) := add_left_cancel h
    exact (Nat.ne_of_lt hj) (Nat.cast_injective h2)

theorem illuminant_row {α : Type} [LinearOrderedField α] (pw : List (α × α))
    (hpw : IlluminantTable pw) (i : Nat) (hi : i < 531) :
    ∃ r, pw[i]? = some r ∧ r.1 = 300 + (i : α) ∧ illuminant_at pw (300 + (i : Int)) = some r := by
  have hrow : ∀ j : Nat, j < 531 → ∃ s, pw[j]? = some s ∧ s.1 = 300 + (j : α) := by
    intro j hj
    have h := hpw.2 j hj
    rw [Option.map_eq_some'] at h
    exact h
  obtain ⟨r, hr, hr1⟩ := hrow i hi
  refine ⟨r, hr, hr1, ?_⟩
  unfold illuminant_at
  apply find?_eq_of_first _ pw i r hr
  · simp only [decide_eq_true_eq, hr1]
    push_cast
    rfl
  · intro j hj s hs
    obtain ⟨s2, hs2, hs21⟩ := hrow j (lt_trans hj hi)
    rw [hs] at hs2
    cases hs2
    simp only [decide_eq_false_iff_not, hs21]
    push_cast
    intro h
    have h2 : (j : α) = (i : α) := add_left_cancel h
    exact (Nat.ne_of_lt hj) (Nat.cast_injective h2)

/-- At step `k` of the loops the index `tr + k` with `tr = firstwav - 360`
reads the observer row for the wavelength `firstwav + k`. -/
theorem observer_read_aligned {α : Type} [LinearOrderedField α] (cie : List (α × α × α × α))
    (hcie : ObserverTable cie) (firstwav : Int) (h360 : 360 ≤ firstwav) (k : Nat)
    (hk : k < (831 - firstwav).toNat) :
    ∃ r, readRow cie (firstwav - 360 + (k : Int)) = some r ∧
      observer_at cie (firstwav + (k : Int)) = some r := by
  have hi : (firstwav - 360 + (k : Int)).toNat < 471 := by omega
  obtain ⟨r, hr, -, hat⟩ := observer_row cie hcie _ hi
  have e1 : firstwav - 360 + (k : Int) = (((firstwav - 360 + (k : Int)).toNat : Nat) : Int) := by
    omega
  have e2 : firstwav + (k : Int) = 360 + (((firstwav - 360 + (k : Int)).toNat : Nat) : Int) := by
    omega
  refine ⟨r, ?_, ?_⟩
  · rw [e1, readRow_natCast]
    exact hr
  · rw [e2]
    exact hat

/-- At step `k` of the loops the index `te + k` with `te = firstwav - 300`
reads the illuminant row for the wavelength `firstwav + k`. -/
theorem illuminant_read_aligned {α : Type} [LinearOrderedField α] (pw : List (α × α))
    (hpw : IlluminantTable pw) (firstwav : Int) (h360 : 360 ≤ firstwav) (k : Nat)
    (hk : k < (831 - firstwav).toNat) :
    ∃ r, readRow pw (firstwav - 300 + (k : Int)) = some r ∧
      illuminant_at pw (firstwav + (k : Int)) = some r := by
  have hi : (firstwav - 300 + (k : Int)).toNat < 531 := by omega
  obtain ⟨r, hr, -, hat⟩ := illuminant_row pw hpw _ hi
  have e1 : firstwav - 300 + (k : Int) = (((firstwav - 300 + (k : Int)).toNat : Nat) : Int) := by
    omega
  have e2 : firstwav + (k : Int) = 300 + (((firstwav - 300 + (k : Int)).toNat : Nat) : Int) := by
    omega
  refine ⟨r, ?_, ?_⟩
  · rw [e1, readRow_natCast]
    exact hr
  · rw [e2]
    exact hat

theorem table_offsets_eq {α : Type} [LinearOrderedField α] [FloorRing α]
    (cie : List (α × α × α × α)) (pw : List (α × α)) (hcie : ObserverTable cie)
    (hpw : IlluminantTable pw) (firstwav : Int) :
    table_offsets cie pw firstwav = some (firstwav - 360, firstwav - 300) := by
  obtain ⟨c0, hc0, hc1, -⟩ := observer_row cie hcie 0 (by norm_num)
  obtain ⟨p0, hp0, hp1, -⟩ := illuminant_row pw hpw 0 (by norm_num)
  have hc : readRow cie 0 = some c0 := by
    have := readRow_natCast cie 0
    simpa [hc0] using this
  have hp : readRow pw 0 = some p0 := by
    have := readRow_natCast pw 0
    simpa [hp0] using this
  have e1 : (firstwav : α) - c0.1 = ((firstwav - 360 : Int) : α) := by
    rw [hc1]
    push_cast
    ring
  have e2 : (firstwav : α) - p0.1 = ((firstwav - 300 : Int) : α) := by
    rw [hp1]
    push_cast
    ring
  simp only [table_offsets, hc, hp, Option.bind_eq_bind, Option.some_bind, e1, e2,
    c_trunc_intCast]
  rfl

theorem resampled_eq_max {α : Type} [LinearOrderedField α] (S : α → α) (firstwav : Int)
    (k : Nat) : resampled S firstwav k = max (S ((firstwav + (k : Int) : Int) : α)) 0 := by
  unfold resampled
  simp only
  rw [add_comm (k : Int) firstwav]
  split_ifs with h
  · rw [max_eq_right h.le]
    norm_num
  · rw [max_eq_left (not_lt.mp h)]

/-- The normalisation loop with the offsets of `main` computes the `N` of the
specification. -/
theorem CIE_norm_eq_spec {α : Type} [LinearOrderedField α]
    (cie : List (α × α × α × α)) (pw : List (α × α)) (hcie : ObserverTable cie)
    (hpw : IlluminantTable pw) (firstwav : Int) (h360 : 360 ≤ firstwav) :
    CIE_norm cie pw firstwav (firstwav - 360) (firstwav - 300) =
      some (spec_N cie pw firstwav) := by
  unfold CIE_norm
  rw [foldlM_range_eq_some _
    (fun norm k => norm + ybar cie (firstwav + (k : Int)) *
      illuminant_power pw (firstwav + (k : Int)))]
  · rw [foldl_range_add, spec_N, sum_Icc_eq_sum_range]
    norm_num
  · intro k hk b
    obtain ⟨c, hc, hcat⟩ := observer_read_aligned cie hcie firstwav h360 k hk
    obtain ⟨p, hp, hpat⟩ := illuminant_read_aligned pw hpw firstwav h360 k hk
    simp only [hc, hp, Option.bind_eq_bind, Option.some_bind, ybar, illuminant_power, hcat,
      hpat, Option.map_some', Option.getD_some]
    rfl

/-- The pixel loop with the offsets of `main` computes the three sums of the
specification. -/
theorem pixel_sums_eq_spec {α : Type} [LinearOrderedField α]
    (cie : List (α × α × α × α)) (pw : List (α × α)) (hcie : ObserverTable cie)
    (hpw : IlluminantTable pw) (firstwav : Int) (h360 : 360 ≤ firstwav) (S : α → α) :
    pixel_sums cie pw firstwav (firstwav - 360) (firstwav - 300) S =
      some
        (∑ wl ∈ Finset.Icc firstwav 830, max (S (wl : α)) 0 * xbar cie wl * illuminant_power pw wl,
         ∑ wl ∈ Finset.Icc firstwav 830, max (S (wl : α)) 0 * ybar cie wl * illuminant_power pw wl,
         ∑ wl ∈ Finset.Icc firstwav 830, max (S (wl : α)) 0 * zbar cie wl * illuminant_power pw wl) := by
  unfold pixel_sums
  rw [foldlM_range_eq_some _
    (fun acc k =>
      (acc.1 + max (S ((firstwav + (k : Int) : Int) : α)) 0 * xbar cie (firstwav + (k : Int)) *
          illuminant_power pw (firstwav + (k : Int)),
       acc.2.1 + max (S ((firstwav + (k : Int) : Int) : α)) 0 * ybar cie (firstwav + (k : Int)) *
          illuminant_power pw (firstwav + (k : Int)),
       acc.2.2 + max (S ((firstwav + (k : Int) : Int) : α)) 0 * zbar cie (firstwav + (k : Int)) *
          illuminant_power pw (firstwav + (k : Int))))]
  · rw [foldl_range_add3, sum_Icc_eq_sum_range, sum_Icc_eq_sum_range, sum_Icc_eq_sum_range]
    norm_num
  · intro k hk b
    obtain ⟨c, hc, hcat⟩ := observer_read_aligned cie hcie firstwav h360 k hk
    obtain ⟨p, hp, hpat⟩ := illuminant_read_aligned pw hpw firstwav h360 k hk
    simp only [hc, hp, Option.bind_eq_bind, Option.some_bind, xbar, ybar, zbar,
      illuminant_power, hcat, hpat, Option.map_some', Option.getD_some, resampled_eq_max]
    rfl

/-- The tristimulus of `main` is the tristimulus of the specification whenever
the tables are well formed and `firstwav` is at least 360. -/
theorem render_XYZ_eq_spec_of_tables {α : Type} [LinearOrderedField α] [FloorRing α]
    (cie : List (α × α × α × α)) (pw : List (α × α)) (hcie : ObserverTable cie)
    (hpw : IlluminantTable pw) (firstwav : Int) (h360 : 360 ≤ firstwav) (S : α → α) :
    render_XYZ cie pw firstwav S = some (spec_XYZ cie pw firstwav S) := by
  unfold render_XYZ
  rw [table_offsets_eq cie pw hcie hpw firstwav]
  simp only [Option.bind_eq_bind, Option.some_bind]
  rw [CIE_norm_eq_spec cie pw hcie hpw firstwav h360,
    pixel_sums_eq_spec cie pw hcie hpw firstwav h360 S]
  simp only [Option.some_bind, spec_XYZ]
  have e : (100.0 : α) = 100 := by norm_num
  simp only [e, mul_comm _ (100 : α)]
  rfl

theorem sample_observer_table {α : Type} [LinearOrderedField α] (x y z : α) :
    ObserverTable (sample_observer x y z) := by
  constructor
  · simp [sample_observer]
  · intro i hi
    simp [sample_observer, List.getElem?_map, List.getElem?_range hi]

theorem sample_illuminant_table {α : Type} [LinearOrderedField α] (p : α) :
    IlluminantTable (sample_illuminant p) := by
  constructor
  · simp [sample_illuminant]
  · intro i hi
    simp [sample_illuminant, List.getElem?_map, List.getElem?_range hi]

theorem sample_observer_at {α : Type} [LinearOrderedField α] (x y z : α) (i : Nat)
    (hi : i < 471) :
    observer_at (sample_observer x y z) (360 + (i : Int)) = some (360 + (i : α), x, y, z) := by
  obtain ⟨r, hr, -, hat⟩ := observer_row _ (sample_observer_table x y z) i hi
  rw [hat, ← hr]
  simp [sample_observer, List.getElem?_map, List.getElem?_range hi]

theorem sample_illuminant_at {α : Type} [LinearOrderedField α] (p : α) (i : Nat)
    (hi : i < 531) :
    illuminant_at (sample_illuminant p) (300 + (i : Int)) = some (300 + (i : α), p) := by
  obtain ⟨r, hr, -, hat⟩ := illuminant_row _ (sample_illuminant_table p) i hi
  rw [hat, ← hr]
  simp [sample_illuminant, List.getElem?_map, List.getElem?_range hi]

/-- The tristimulus of `main` for the sample tables at `firstwav = 830`, where
the loops run once (for 830 nm). -/
theorem render_XYZ_sample_830 (x y z p : ℚ) (S : ℚ → ℚ) :
    render_XYZ (sample_observer x y z) (sample_illuminant p) 830 S =
      some (100 * (max (S 830) 0 * x * p) / (y * p), 100 * (max (S 830) 0 * y * p) / (y * p),
        100 * (max (S 830) 0 * z * p) / (y * p)) := by
  rw [render_XYZ_eq_spec_of_tables _ _ (sample_observer_table x y z) (sample_illuminant_table p)
    830 (by norm_num)]
  have ho := sample_observer_at x y z 470 (by norm_num)
  have hi := sample_illuminant_at p 530 (by norm_num)
  norm_num at ho hi
  simp [spec_XYZ, spec_N, xbar, ybar, zbar, illuminant_power, ho, hi]

/-! ## Colour conversion: the claims -/

/-- On numbers: for every tristimulus `(XX, YY, ZZ)`, every rendering
temperature and every value of `icc_profile` (1 is sRGB, 2 is AdobeRGB), the
RGB computed by `XYZ2RGB` with the selected matrix, followed by the matching
gamma, has each of R, G and B in `[0,1]`. -/
theorem render_RGB_in_unit_range (icc_profile : Nat) (temperature : Int) (XX YY ZZ : ℝ) :
    (0 ≤ (render_RGB (fun x e : ℝ => x ^ e) icc_profile temperature XX YY ZZ).1 ∧
      (render_RGB (fun x e : ℝ => x ^ e) icc_profile temperature XX YY ZZ).1 ≤ 1) ∧
    (0 ≤ (render_RGB (fun x e : ℝ => x ^ e) icc_profile temperature XX YY ZZ).2.1 ∧
      (render_RGB (fun x e : ℝ => x ^ e) icc_profile temperature XX YY ZZ).2.1 ≤ 1) ∧
    (0 ≤ (render_RGB (fun x e : ℝ => x ^ e) icc_profile temperature XX YY ZZ).2.2 ∧
      (render_RGB (fun x e : ℝ => x ^ e) icc_profile temperature XX YY ZZ).2.2 ≤ 1) := by
  unfold render_RGB
  split_ifs with hp ht ht
  · obtain ⟨⟨a1, a2⟩, ⟨b1, b2⟩, ⟨c1, c2⟩⟩ := XYZ2RGB_range XYZ_AdobeRGB_matrix_D50 XX YY ZZ
    exact ⟨AdobeRGB_pow_real_range _ a1 a2, AdobeRGB_pow_real_range _ b1 b2,
      AdobeRGB_pow_real_range _ c1 c2⟩
  · obtain ⟨⟨a1, a2⟩, ⟨b1, b2⟩, ⟨c1, c2⟩⟩ := XYZ2RGB_range XYZ_AdobeRGB_matrix_D65 XX YY ZZ
    exact ⟨AdobeRGB_pow_real_range _ a1 a2, AdobeRGB_pow_real_range _ b1 b2,
      AdobeRGB_pow_real_range _ c1 c2⟩
  · obtain ⟨⟨a1, a2⟩, ⟨b1, b2⟩, ⟨c1, c2⟩⟩ := XYZ2RGB_range XYZ_sRGB_matrix_D50 XX YY ZZ
    exact ⟨sRGB_Gamma_real_range _ a1 a2, sRGB_Gamma_real_range _ b1 b2,
      sRGB_Gamma_real_range _ c1 c2⟩
  · obtain ⟨⟨a1, a2⟩, ⟨b1, b2⟩, ⟨c1, c2⟩⟩ := XYZ2RGB_range XYZ_sRGB_matrix_D65 XX YY ZZ
    exact ⟨sRGB_Gamma_real_range _ a1 a2, sRGB_Gamma_real_range _ b1 b2,
      sRGB_Gamma_real_range _ c1 c2⟩

/-- On numbers: for every input `(X, Y, Z)`, negative and arbitrarily large
components included, and whatever `cbrtf` returns, the `L*` returned by
`XYZ2LAB` satisfies `0 ≤ L* ≤ 100`. -/
theorem XYZ2LAB_L_range {α : Type} [LinearOrderedField α] (cbrtf : α → α) (X Y Z : α) :
    0 ≤ (XYZ2LAB cbrtf X Y Z).1 ∧ (XYZ2LAB cbrtf X Y Z).1 ≤ 100 := by
  have h : (0 : α) ≤ 100.0 := by norm_num
  have e : (100.0 : α) = 100 := by norm_num
  simp only [XYZ2LAB]
  exact ⟨clip_nonneg _ _ h, (clip_le _ _ h).trans e.le⟩

/-- C3, counterexample. The non-negative tristimulus `(0, 100, 0)` gives
`a* = -12500/29 < -128` and `b* = 5000/29 > 127`: `XYZ2LAB` clips `L*` only. -/
theorem XYZ2LAB_ab_out_of_range :
    (XYZ2LAB (fun x : ℝ => x ^ ((1 : ℝ) / 3)) 0 100 0).2.1 < -128 ∧
      127 < (XYZ2LAB (fun x : ℝ => x ^ ((1 : ℝ) / 3)) 0 100 0).2.2 := by
  have hx : (0 : ℝ) / X_D65 = 0 := by norm_num
  have hy : (100 : ℝ) / Y_D65 = 1 := by norm_num [Y_D65]
  have hz : (0 : ℝ) / Z_D65 = 0 := by norm_num
  simp only [XYZ2LAB, hx, hy, hz, lab_f_real_one, lab_f_real_zero]
  norm_num

/-- C3, amended. For a tristimulus with `0 ≤ X ≤ 95.047`, `0 ≤ Y ≤ 100` and
`0 ≤ Z ≤ 108.88` (no component above the D65 white point) the unclipped `a*`
and `b*` returned by `XYZ2LAB` satisfy `|a*| ≤ 12500/29` (about 431.04) and
`|b*| ≤ 5000/29` (about 172.42). -/
theorem XYZ2LAB_ab_range (X Y Z : ℝ) (hX0 : 0 ≤ X) (hX1 : X ≤ 95.047)
    (hY0 : 0 ≤ Y) (hY1 : Y ≤ 100) (hZ0 : 0 ≤ Z) (hZ1 : Z ≤ 108.88) :
    (-(12500 / 29) ≤ (XYZ2LAB (fun x : ℝ => x ^ ((1 : ℝ) / 3)) X Y Z).2.1 ∧
      (XYZ2LAB (fun x : ℝ => x ^ ((1 : ℝ) / 3)) X Y Z).2.1 ≤ 12500 / 29) ∧
    (-(5000 / 29) ≤ (XYZ2LAB (fun x : ℝ => x ^ ((1 : ℝ) / 3)) X Y Z).2.2 ∧
      (XYZ2LAB (fun x : ℝ => x ^ ((1 : ℝ) / 3)) X Y Z).2.2 ≤ 5000 / 29) := by
  have hx := lab_f_real_range (X / X_D65) (div_nonneg hX0 (by norm_num [X_D65]))
    (by rw [div_le_one (by norm_num [X_D65])]; simpa [X_D65] using hX1)
  have hy := lab_f_real_range (Y / Y_D65) (div_nonneg hY0 (by norm_num [Y_D65]))
    (by rw [div_le_one (by norm_num [Y_D65])]; norm_num [Y_D65]; exact hY1)
  have hz := lab_f_real_range (Z / Z_D65) (div_nonneg hZ0 (by norm_num [Z_D65]))
    (by rw [div_le_one (by norm_num [Z_D65])]; simpa [Z_D65] using hZ1)
  obtain ⟨hx0, hx1⟩ := hx
  obtain ⟨hy0, hy1⟩ := hy
  obtain ⟨hz0, hz1⟩ := hz
  simp only [XYZ2LAB]
  norm_num at hx0 hy0 hz0 ⊢
  refine ⟨⟨?_, ?_⟩, ?_, ?_⟩ <;> linarith

/-- C3, witness of the amended bound at the mid-grey tristimulus `(50, 50, 50)`. -/
theorem XYZ2LAB_ab_range_witness :
    (-(12500 / 29) ≤ (XYZ2LAB (fun x : ℝ => x ^ ((1 : ℝ) / 3)) 50 50 50).2.1 ∧
      (XYZ2LAB (fun x : ℝ => x ^ ((1 : ℝ) / 3)) 50 50 50).2.1 ≤ 12500 / 29) ∧
    (-(5000 / 29) ≤ (XYZ2LAB (fun x : ℝ => x ^ ((1 : ℝ) / 3)) 50 50 50).2.2 ∧
      (XYZ2LAB (fun x : ℝ => x ^ ((1 : ℝ) / 3)) 50 50 50).2.2 ≤ 5000 / 29) :=
  XYZ2LAB_ab_range 50 50 50 (by norm_num) (by norm_num) (by norm_num) (by norm_num)
    (by norm_num) (by norm_num)

/-- C4. `XYZ2LAB` applied to the D65 white point `(95.047, 100.0, 108.88)`
returns `L*` within `1e-3` of 100 and `a*`, `b*` within `1e-3` of 0. -/
theorem XYZ2LAB_D65_white_point :
    |(XYZ2LAB (fun x : ℝ => x ^ ((1 : ℝ) / 3)) 95.047 100.0 108.88).1 - 100| ≤ 1e-3 ∧
    |(XYZ2LAB (fun x : ℝ => x ^ ((1 : ℝ) / 3)) 95.047 100.0 108.88).2.1| ≤ 1e-3 ∧
    |(XYZ2LAB (fun x : ℝ => x ^ ((1 : ℝ) / 3)) 95.047 100.0 108.88).2.2| ≤ 1e-3 := by
  have hx : (95.047 : ℝ) / X_D65 = 1 := by norm_num [X_D65]
  have hy : (100.0 : ℝ) / Y_D65 = 1 := by norm_num [Y_D65]
  have hz : (108.88 : ℝ) / Z_D65 = 1 := by norm_num [Z_D65]
  simp only [XYZ2LAB, hx, hy, hz, lab_f_real_one, clip]
  norm_num

/-- C5. `XYZ2RGB` with `XYZ_sRGB_matrix_D65` applied to the D65 white point
`(95.047, 100.0, 108.88)`, followed by `sRGB_Gamma`, returns R, G and B each
within `1e-3` of 1. -/
theorem sRGB_D65_white_point :
    |(sRGB_Gamma (fun x e : ℝ => x ^ e)
        (XYZ2RGB XYZ_sRGB_matrix_D65 95.047 100.0 108.88)).1 - 1| ≤ 1e-3 ∧
    |(sRGB_Gamma (fun x e : ℝ => x ^ e)
        (XYZ2RGB XYZ_sRGB_matrix_D65 95.047 100.0 108.88)).2.1 - 1| ≤ 1e-3 ∧
    |(sRGB_Gamma (fun x e : ℝ => x ^ e)
        (XYZ2RGB XYZ_sRGB_matrix_D65 95.047 100.0 108.88)).2.2 - 1| ≤ 1e-3 := by
  rw [XYZ2RGB_sRGB_D65_white]
  simp only [sRGB_Gamma, sRGB_Gamma_real_one]
  obtain ⟨hlo, hhi⟩ := sRGB_Gamma_real_near_one (12499867781 / 12500000000)
    (by norm_num) (by norm_num)
  refine ⟨by norm_num, ?_, by norm_num⟩
  rw [abs_le]
  constructor
  · norm_num at hlo ⊢
    linarith
  · norm_num
    linarith


/-! ## The Planck spectrum -/

/-- The function `calculate_power_spectrum` at 5000 K with the real
exponential, its constants multiplied out. -/
theorem calculate_power_spectrum_5000 (w : Int) :
    calculate_power_spectrum Real.exp 5000 w =
      3.74177152e-16 /
        (((w : ℝ) * 1e-9) ^ 5 * (Real.exp (0.0143877696 / ((w : ℝ) * 1e-9 * 5000)) - 1)) := by
  simp only [calculate_power_spectrum]
  norm_num


/-- C6. At `T = 5000` K the Planck spectrum rises from 500 nm to 550 nm and
falls from 700 nm to 800 nm, as a peak near 580 nm requires. -/
theorem planck_5000_peak_consistent :
    calculate_power_spectrum Real.exp 5000 500 < calculate_power_spectrum Real.exp 5000 550 ∧
    calculate_power_spectrum Real.exp 5000 700 > calculate_power_spectrum Real.exp 5000 800 := by
  simp only [calculate_power_spectrum_5000]
  constructor
  · -- 500 nm against 550 nm
    have hd : (0.0143877696 : ℝ) / (((500 : ℤ) : ℝ) * 1e-9 * 5000) =
        0.0143877696 / (((550 : ℤ) : ℝ) * 1e-9 * 5000) + 0.0143877696 / 0.0275 := by
      norm_num
    have hq := Real.quadratic_le_exp_of_nonneg (x := (0.0143877696 : ℝ) / 0.0275) (by norm_num)
    have hE : 0 < Real.exp (0.0143877696 / (((550 : ℤ) : ℝ) * 1e-9 * 5000)) := Real.exp_pos _
    have hE1 := Real.add_one_le_exp (0.0143877696 / (((550 : ℤ) : ℝ) * 1e-9 * 5000))
    rw [hd, Real.exp_add]
    set E := Real.exp (0.0143877696 / (((550 : ℤ) : ℝ) * 1e-9 * 5000)) with hEdef
    set q := Real.exp ((0.0143877696 : ℝ) / 0.0275) with hqdef
    have hq2 : (1.61051 : ℝ) < q := by
      norm_num at hq ⊢
      linarith
    have hE2 : (1 : ℝ) < E := by
      have h0 : (0 : ℝ) < 0.0143877696 / (((550 : ℤ) : ℝ) * 1e-9 * 5000) := by norm_num
      linarith
    apply div_lt_div_of_pos_left (by norm_num)
    · exact mul_pos (by norm_num) (by linarith)
    · have key : (1.61051 : ℝ) * (E - 1) < E * q - 1 := by nlinarith
      have e1 : (((550 : ℤ) : ℝ) * 1e-9) ^ 5 = 1.61051 * ((((500 : ℤ) : ℝ) * 1e-9) ^ 5) := by
        norm_num
      rw [e1, mul_assoc]
      have hpos : (0 : ℝ) < (((500 : ℤ) : ℝ) * 1e-9) ^ 5 := by norm_num
      rw [mul_comm (1.61051 : ℝ) _, mul_assoc]
      exact mul_lt_mul_of_pos_left (by linarith) hpos
  · -- 700 nm against 800 nm
    have hd : (0.0143877696 : ℝ) / (((700 : ℤ) : ℝ) * 1e-9 * 5000) =
        0.0143877696 / (((800 : ℤ) : ℝ) * 1e-9 * 5000) +
          (0.0143877696 / 0.056 + 0.0143877696 / 0.056) := by
      norm_num
    have hh := Real.exp_bound_div_one_sub_of_interval (x := (0.0143877696 : ℝ) / 0.056)
      (by norm_num) (by norm_num)
    have hhpos : 0 < Real.exp ((0.0143877696 : ℝ) / 0.056) := Real.exp_pos _
    have hEq := Real.quadratic_le_exp_of_nonneg
      (x := (0.0143877696 : ℝ) / (((800 : ℤ) : ℝ) * 1e-9 * 5000)) (by norm_num)
    rw [gt_iff_lt, hd, Real.exp_add, Real.exp_add]
    set E := Real.exp (0.0143877696 / (((800 : ℤ) : ℝ) * 1e-9 * 5000)) with hEdef
    set h := Real.exp ((0.0143877696 : ℝ) / 0.056) with hhdef
    have hh2 : h ≤ 1.35 := by
      norm_num at hh ⊢
      linarith
    have hE2 : (11 : ℝ) ≤ E := by
      norm_num at hEq ⊢
      linarith
    have hq : h * h ≤ 1.35 * 1.35 := mul_le_mul hh2 hh2 hhpos.le (by norm_num)
    have key : E * (h * h) - 1 < (32768 / 16807 : ℝ) * (E - 1) := by nlinarith
    have hEh : 1 < E * (h * h) := by
      have h1 := Real.add_one_le_exp ((0.0143877696 : ℝ) / 0.056)
      have h0 : (0 : ℝ) < 0.0143877696 / 0.056 := by norm_num
      have hge : 1 ≤ h := by linarith
      nlinarith
    apply div_lt_div_of_pos_left (by norm_num)
    · exact mul_pos (by norm_num) (by linarith)
    · have e1 : (((800 : ℤ) : ℝ) * 1e-9) ^ 5 = (32768 / 16807) * ((((700 : ℤ) : ℝ) * 1e-9) ^ 5) := by
        norm_num
      have hpos : (0 : ℝ) < (((700 : ℤ) : ℝ) * 1e-9) ^ 5 := by norm_num
      rw [e1, mul_comm (32768 / 16807 : ℝ) _, mul_assoc]
      exact mul_lt_mul_of_pos_left key hpos


/-! ## The illuminant builder -/

/-- With static tables of at least 531 rows every row of the illuminant loop
is written, whatever the temperature. -/
theorem power_spectrum_row_eq {α : Type} [LinearOrderedField α] (exp : α → α)
    (CIE_A D65 : List (α × α)) (hA : 531 ≤ CIE_A.length) (hD : 531 ≤ D65.length)
    (temperature : Int) (i : Nat) (hi : i < 531) :
    power_spectrum_row exp CIE_A D65 temperature (300 + (i : Int)) =
      some (300 + (i : α),
        if temperature = -1 then ((CIE_A[i]?).map fun r => r.2).getD 0
        else if temperature = 6504 then ((D65[i]?).map fun r => r.2).getD 0
        else calculate_power_spectrum exp temperature (300 + (i : Int))) := by
  have e : (300 + (i : Int)) - 300 = (i : Int) := by ring
  have hAi : i < CIE_A.length := lt_of_lt_of_le hi hA
  have hDi : i < D65.length := lt_of_lt_of_le hi hD
  unfold power_spectrum_row
  rw [e, readRow_natCast, readRow_natCast]
  split_ifs with h1 h2
  · simp [List.getElem?_eq_getElem hAi]
  · simp [List.getElem?_eq_getElem hDi]
  · simp

/-- The table that the illuminant loop builds, row by row. -/
theorem load_power_spectrum_eq {α : Type} [LinearOrderedField α] (exp : α → α)
    (CIE_A D65 : List (α × α)) (hA : 531 ≤ CIE_A.length) (hD : 531 ≤ D65.length)
    (temperature : Int) :
    load_power_spectrum exp CIE_A D65 temperature =
      some ((List.range 531).map fun (i : Nat) =>
        (300 + (i : α),
          if temperature = -1 then ((CIE_A[i]?).map fun r => r.2).getD 0
          else if temperature = 6504 then ((D65[i]?).map fun r => r.2).getD 0
          else calculate_power_spectrum exp temperature (300 + (i : Int)))) := by
  unfold load_power_spectrum
  apply mapM_option_eq_some_map
  intro i hi
  exact power_spectrum_row_eq exp CIE_A D65 hA hD temperature i (List.mem_range.mp hi)

/-- C7, counterexample. The option parser turns the illuminant name `A` into the
temperature `-1`, and for `-1` (as for 0) the illuminant loop produces a
table: with the sample tables it is the 531 rows of the table standing for
`CIE_A`. -/
theorem load_power_spectrum_nonpositive_succeeds :
    parse_temperature (fun _ => 0) "A" = -1 ∧
    load_power_spectrum Real.exp (sample_illuminant 1) (sample_illuminant 2) (-1) =
      some (sample_illuminant 1) ∧
    (load_power_spectrum Real.exp (sample_illuminant 1) (sample_illuminant 2) 0).isSome = true := by
  refine ⟨by decide, ?_, ?_⟩
  · rw [load_power_spectrum_eq _ _ _ (by simp [sample_illuminant]) (by simp [sample_illuminant])]
    simp only [sample_illuminant, if_true, Option.some.injEq]
    apply List.map_congr_left
    intro i hi
    have hi2 : i < 531 := List.mem_range.mp hi
    simp [List.getElem?_map, List.getElem?_range hi2]
  · rw [load_power_spectrum_eq _ _ _ (by simp [sample_illuminant]) (by simp [sample_illuminant])]
    rfl

/-- C7, amended. For every temperature, `T ≤ 0` included, and static tables of
at least 531 rows the illuminant loop produces a well-formed table of 531 rows
(row `i` for the wavelength `300 + i`); its power column is the tabulated
illuminant A for `T = -1`, the tabulated D65 for `T = 6504` and
`calculate_power_spectrum T (300 + i)` for every other `T`. -/
theorem load_power_spectrum_total {α : Type} [LinearOrderedField α] (exp : α → α)
    (CIE_A D65 : List (α × α)) (hA : 531 ≤ CIE_A.length) (hD : 531 ≤ D65.length)
    (temperature : Int) :
    ∃ pw, load_power_spectrum exp CIE_A D65 temperature = some pw ∧ IlluminantTable pw ∧
      ∀ i : Nat, i < 531 →
        (pw[i]?).map (fun r => r.2) =
          if temperature = -1 then (CIE_A[i]?).map fun r => r.2
          else if temperature = 6504 then (D65[i]?).map fun r => r.2
          else some (calculate_power_spectrum exp temperature (300 + (i : Int))) := by
  refine ⟨_, load_power_spectrum_eq exp CIE_A D65 hA hD temperature, ⟨by simp, ?_⟩, ?_⟩
  · intro i hi
    simp [List.getElem?_map, List.getElem?_range hi]
  · intro i hi
    have hAi : i < CIE_A.length := lt_of_lt_of_le hi hA
    have hDi : i < D65.length := lt_of_lt_of_le hi hD
    simp only [List.getElem?_map, List.getElem?_range hi, Option.map_some']
    split_ifs with h1 h2
    · simp [List.getElem?_eq_getElem hAi]
    · simp [List.getElem?_eq_getElem hDi]
    · rfl

/-- C7, witness of the amended statement at `T = 0` with the sample tables. -/
theorem load_power_spectrum_total_witness :
    531 ≤ (sample_illuminant (1 : ℚ)).length ∧ 531 ≤ (sample_illuminant (2 : ℚ)).length ∧
    ∃ pw, load_power_spectrum (fun x : ℚ => 1 + x) (sample_illuminant 1) (sample_illuminant 2) 0 =
        some pw ∧ IlluminantTable pw ∧
      ∀ i : Nat, i < 531 →
        (pw[i]?).map (fun r => r.2) =
          if (0 : Int) = -1 then ((sample_illuminant (1 : ℚ))[i]?).map fun r => r.2
          else if (0 : Int) = 6504 then ((sample_illuminant (2 : ℚ))[i]?).map fun r => r.2
          else some (calculate_power_spectrum (fun x : ℚ => 1 + x) 0 (300 + (i : Int))) :=
  ⟨by simp [sample_illuminant], by simp [sample_illuminant],
    load_power_spectrum_total (fun x : ℚ => 1 + x) (sample_illuminant 1) (sample_illuminant 2)
      (by simp [sample_illuminant]) (by simp [sample_illuminant]) 0⟩

/-! ## Normalisation and tristimulus -/

theorem CIE_norm_sample_830 (x y z p : ℚ) :
    CIE_norm (sample_observer x y z) (sample_illuminant p) 830 470 530 = some (y * p) := by
  have h := CIE_norm_eq_spec _ _ (sample_observer_table x y z) (sample_illuminant_table p)
    830 (by norm_num)
  have ho := sample_observer_at x y z 470 (by norm_num)
  have hi := sample_illuminant_at p 530 (by norm_num)
  norm_num at h ho hi
  rw [h]
  simp [spec_N, ybar, illuminant_power, ho, hi]

/-- For `firstwav > 830` neither loop runs: `norm` and the three sums stay 0. -/
theorem loops_empty_above_830 {α : Type} [LinearOrderedField α]
    (cie : List (α × α × α × α)) (pw : List (α × α)) (firstwav tr te : Int)
    (h : 830 < firstwav) (S : α → α) :
    CIE_norm cie pw firstwav tr te = some 0 ∧
      pixel_sums cie pw firstwav tr te S = some (0, 0, 0) := by
  have e : (831 - firstwav).toNat = 0 := by omega
  unfold CIE_norm pixel_sums
  rw [e]
  simp only [List.range_zero, List.foldlM_nil]
  constructor
  · show some (0.0 : α) = some 0
    norm_num
  · show some ((0.0 : α), (0.0 : α), (0.0 : α)) = some (0, 0, 0)
    norm_num

theorem observer_at_nonneg {α : Type} [LinearOrderedField α] (cie : List (α × α × α × α))
    (h0 : ∀ r ∈ cie, 0 ≤ r.2.1 ∧ 0 ≤ r.2.2.1 ∧ 0 ≤ r.2.2.2) (wl : Int) :
    0 ≤ xbar cie wl ∧ 0 ≤ ybar cie wl ∧ 0 ≤ zbar cie wl := by
  unfold xbar ybar zbar
  cases hr : observer_at cie wl with
  | none => simp
  | some r =>
    have hmem : r ∈ cie := List.mem_of_find?_eq_some hr
    simpa using h0 r hmem

theorem illuminant_power_nonneg {α : Type} [LinearOrderedField α] (pw : List (α × α))
    (h0 : ∀ r ∈ pw, 0 ≤ r.2) (wl : Int) : 0 ≤ illuminant_power pw wl := by
  unfold illuminant_power
  cases hr : illuminant_at pw wl with
  | none => simp
  | some r =>
    have hmem : r ∈ pw := List.mem_of_find?_eq_some hr
    simpa using h0 r hmem

/-- A weighted sum with weights in `[0,1]` and non-negative terms lies between 0
and the unweighted sum. -/
theorem weighted_sum_bounds {α : Type} [LinearOrderedField α] (s : Finset Int)
    (m c p : Int → α) (hm : ∀ wl ∈ s, 0 ≤ m wl ∧ m wl ≤ 1) (hc : ∀ wl, 0 ≤ c wl)
    (hp : ∀ wl, 0 ≤ p wl) :
    0 ≤ ∑ wl ∈ s, m wl * c wl * p wl ∧ ∑ wl ∈ s, m wl * c wl * p wl ≤ ∑ wl ∈ s, c wl * p wl := by
  constructor
  · apply Finset.sum_nonneg
    intro wl hwl
    exact mul_nonneg (mul_nonneg (hm wl hwl).1 (hc wl)) (hp wl)
  · apply Finset.sum_le_sum
    intro wl hwl
    have h1 : m wl * c wl ≤ 1 * c wl := mul_le_mul_of_nonneg_right (hm wl hwl).2 (hc wl)
    rw [one_mul] at h1
    exact mul_le_mul_of_nonneg_right h1 (hp wl)

theorem scaled_quotient_bounds {α : Type} [LinearOrderedField α] (A B N : α) (hA : 0 ≤ A)
    (hAB : A ≤ B) (hN : 0 < N) : 0 ≤ 100 * A / N ∧ 100 * A / N ≤ 100 * B / N := by
  constructor
  · exact div_nonneg (mul_nonneg (by norm_num) hA) hN.le
  · exact div_le_div_of_nonneg_right (mul_le_mul_of_nonneg_left hAB (by norm_num)) hN.le

/-- C8, counterexample. With the sample tables and `firstwav = 831` the
summation range is empty, `norm` and the pixel sums are 0 and the render still
yields a tristimulus for the pixel; with a negative illuminant and
`firstwav = 830` the constant is `N = -1` and the pixel's tristimulus is
computed as `(50, 50, 100)`.  Nothing rejects the render. -/
theorem render_XYZ_with_nonpositive_norm :
    (CIE_norm (sample_observer (1 : ℚ) 1 2) (sample_illuminant 1) 831 471 531 = some 0 ∧
      pixel_sums (sample_observer (1 : ℚ) 1 2) (sample_illuminant 1) 831 471 531 (fun _ => 1) =
        some (0, 0, 0) ∧
      (render_XYZ (sample_observer (1 : ℚ) 1 2) (sample_illuminant 1) 831 (fun _ => 1)).isSome =
        true) ∧
    (CIE_norm (sample_observer (1 : ℚ) 1 2) (sample_illuminant (-1)) 830 470 530 = some (-1) ∧
      render_XYZ (sample_observer (1 : ℚ) 1 2) (sample_illuminant (-1)) 830 (fun _ => 1 / 2) =
        some (50, 50, 100)) := by
  refine ⟨⟨(loops_empty_above_830 _ _ 831 471 531 (by norm_num) (fun _ => 1)).1,
    (loops_empty_above_830 _ _ 831 471 531 (by norm_num) (fun _ => 1)).2, ?_⟩, ?_, ?_⟩
  · rw [render_XYZ_eq_spec_of_tables _ _ (sample_observer_table 1 1 2)
      (sample_illuminant_table 1) 831 (by norm_num)]
    rfl
  · rw [CIE_norm_sample_830]
    norm_num
  · rw [render_XYZ_sample_830]
    norm_num

/-- C8, amended. For well-formed tables, every `firstwav ≥ 360` and every
interpolant the render computes `norm`, the pixel sums and a tristimulus for
the pixel without any test of `norm`: for `norm ≠ 0`, negative values included,
the tristimulus is `(X·100/norm, Y·100/norm, Z·100/norm)`; for `firstwav > 830`
the summation range is empty and `norm` and the three sums are 0. -/
theorem render_XYZ_unguarded {α : Type} [LinearOrderedField α] [FloorRing α]
    (cie : List (α × α × α × α)) (pw : List (α × α)) (hcie : ObserverTable cie)
    (hpw : IlluminantTable pw) (firstwav : Int) (h360 : 360 ≤ firstwav) (S : α → α) :
    ∃ N X Y Z, CIE_norm cie pw firstwav (firstwav - 360) (firstwav - 300) = some N ∧
      pixel_sums cie pw firstwav (firstwav - 360) (firstwav - 300) S = some (X, Y, Z) ∧
      (render_XYZ cie pw firstwav S).isSome = true ∧
      (N ≠ 0 → render_XYZ cie pw firstwav S = some (X * 100 / N, Y * 100 / N, Z * 100 / N)) ∧
      (830 < firstwav → N = 0 ∧ X = 0 ∧ Y = 0 ∧ Z = 0) := by
  have hn := CIE_norm_eq_spec cie pw hcie hpw firstwav h360
  have hs := pixel_sums_eq_spec cie pw hcie hpw firstwav h360 S
  have hr := render_XYZ_eq_spec_of_tables cie pw hcie hpw firstwav h360 S
  refine ⟨_, _, _, _, hn, hs, by rw [hr]; rfl, ?_, ?_⟩
  · intro _
    rw [hr]
    simp only [spec_XYZ, mul_comm (100 : α) _]
  · intro h
    obtain ⟨e1, e2⟩ := loops_empty_above_830 cie pw firstwav (firstwav - 360) (firstwav - 300) h S
    rw [hn] at e1
    rw [hs] at e2
    simp only [Option.some.injEq, Prod.mk.injEq] at e1 e2
    exact ⟨e1, e2.1, e2.2.1, e2.2.2⟩

/-- C8, witness of the amended statement: the sample tables at `firstwav = 831`. -/
theorem render_XYZ_unguarded_witness :
    ObserverTable (sample_observer (1 : ℚ) 1 2) ∧ IlluminantTable (sample_illuminant (1 : ℚ)) ∧
    (360 : Int) ≤ 831 ∧
    ∃ N X Y Z,
      CIE_norm (sample_observer (1 : ℚ) 1 2) (sample_illuminant 1) 831 (831 - 360) (831 - 300) =
        some N ∧
      pixel_sums (sample_observer (1 : ℚ) 1 2) (sample_illuminant 1) 831 (831 - 360) (831 - 300)
        (fun _ => 1) = some (X, Y, Z) ∧
      (render_XYZ (sample_observer (1 : ℚ) 1 2) (sample_illuminant 1) 831 (fun _ => 1)).isSome =
        true ∧
      (N ≠ 0 → render_XYZ (sample_observer (1 : ℚ) 1 2) (sample_illuminant 1) 831 (fun _ => 1) =
        some (X * 100 / N, Y * 100 / N, Z * 100 / N)) ∧
      ((830 : Int) < 831 → N = 0 ∧ X = 0 ∧ Y = 0 ∧ Z = 0) :=
  ⟨sample_observer_table 1 1 2, sample_illuminant_table 1, by norm_num,
    render_XYZ_unguarded _ _ (sample_observer_table 1 1 2) (sample_illuminant_table 1) 831
      (by norm_num) (fun _ => 1)⟩

/-- C10, counterexample. With the sample tables (x̄ = ȳ = 1, z̄ = 2, power 1), a
pixel whose resampled value is 1 and `firstwav = 830`, the constant is `N = 1`
and the render loop yields `Z = 200 > 100`. -/
theorem tristimulus_Z_above_100 :
    CIE_norm (sample_observer (1 : ℚ) 1 2) (sample_illuminant 1) 830 470 530 = some 1 ∧
    render_XYZ (sample_observer (1 : ℚ) 1 2) (sample_illuminant 1) 830 (fun _ => 1) =
      some (100, 100, 200) := by
  constructor
  · rw [CIE_norm_sample_830]
    norm_num
  · rw [render_XYZ_sample_830]
    norm_num

/-- C10, amended. For every pixel whose resampled spectral values all lie in
`[0,1]`, with non-negative well-formed tables and `N > 0`, the render loop
yields `0 ≤ Y ≤ 100`, while `X` and `Z` satisfy `0 ≤ X ≤ 100·Σ x̄(λ)·I(λ) / N`
and `0 ≤ Z ≤ 100·Σ z̄(λ)·I(λ) / N`, the tristimulus of the illuminant itself. -/
theorem tristimulus_range {α : Type} [LinearOrderedField α] [FloorRing α]
    (cie : List (α × α × α × α)) (pw : List (α × α)) (hcie : ObserverTable cie)
    (hpw : IlluminantTable pw) (firstwav : Int) (h360 : 360 ≤ firstwav) (S : α → α)
    (hS : ∀ wl : Int, firstwav ≤ wl → wl ≤ 830 → 0 ≤ S (wl : α) ∧ S (wl : α) ≤ 1)
    (hcie0 : ∀ r ∈ cie, 0 ≤ r.2.1 ∧ 0 ≤ r.2.2.1 ∧ 0 ≤ r.2.2.2) (hpw0 : ∀ r ∈ pw, 0 ≤ r.2)
    (N : α) (hN : CIE_norm cie pw firstwav (firstwav - 360) (firstwav - 300) = some N)
    (hNpos : 0 < N) :
    ∃ X Y Z, render_XYZ cie pw firstwav S = some (X, Y, Z) ∧
      (0 ≤ X ∧ X ≤ 100 * (∑ wl ∈ Finset.Icc firstwav 830,
        xbar cie wl * illuminant_power pw wl) / N) ∧
      (0 ≤ Y ∧ Y ≤ 100) ∧
      (0 ≤ Z ∧ Z ≤ 100 * (∑ wl ∈ Finset.Icc firstwav 830,
        zbar cie wl * illuminant_power pw wl) / N) := by
  have hn := CIE_norm_eq_spec cie pw hcie hpw firstwav h360
  rw [hN, Option.some.injEq] at hn
  subst hn
  have hm : ∀ wl ∈ Finset.Icc firstwav 830,
      0 ≤ max (S (wl : α)) 0 ∧ max (S (wl : α)) 0 ≤ 1 := by
    intro wl hwl
    rw [Finset.mem_Icc] at hwl
    exact ⟨le_max_right _ _, max_le (hS wl hwl.1 hwl.2).2 zero_le_one⟩
  have hp := illuminant_power_nonneg pw hpw0
  have hx := weighted_sum_bounds (Finset.Icc firstwav 830) (fun wl => max (S (wl : α)) 0)
    (xbar cie) (illuminant_power pw) hm (fun wl => (observer_at_nonneg cie hcie0 wl).1) hp
  have hy := weighted_sum_bounds (Finset.Icc firstwav 830) (fun wl => max (S (wl : α)) 0)
    (ybar cie) (illuminant_power pw) hm (fun wl => (observer_at_nonneg cie hcie0 wl).2.1) hp
  have hz := weighted_sum_bounds (Finset.Icc firstwav 830) (fun wl => max (S (wl : α)) 0)
    (zbar cie) (illuminant_power pw) hm (fun wl => (observer_at_nonneg cie hcie0 wl).2.2) hp
  refine ⟨_, _, _, render_XYZ_eq_spec_of_tables cie pw hcie hpw firstwav h360 S, ?_, ?_, ?_⟩
  · exact scaled_quotient_bounds _ _ _ hx.1 hx.2 hNpos
  · have h := scaled_quotient_bounds _ _ _ hy.1 hy.2 hNpos
    refine ⟨h.1, h.2.trans ?_⟩
    change 100 * spec_N cie pw firstwav / spec_N cie pw firstwav ≤ 100
    rw [mul_div_assoc, div_self hNpos.ne', mul_one]
  · exact scaled_quotient_bounds _ _ _ hz.1 hz.2 hNpos

/-- C10, witness of the amended statement: the sample tables, `firstwav = 830`
and a pixel whose resampled value is 1. -/
theorem tristimulus_range_witness :
    ∃ X Y Z, render_XYZ (sample_observer (1 : ℚ) 1 2) (sample_illuminant 1) 830 (fun _ => 1) =
        some (X, Y, Z) ∧
      (0 ≤ X ∧ X ≤ 100 * (∑ wl ∈ Finset.Icc (830 : Int) 830,
        xbar (sample_observer (1 : ℚ) 1 2) wl * illuminant_power (sample_illuminant (1 : ℚ)) wl)
          / 1) ∧
      (0 ≤ Y ∧ Y ≤ 100) ∧
      (0 ≤ Z ∧ Z ≤ 100 * (∑ wl ∈ Finset.Icc (830 : Int) 830,
        zbar (sample_observer (1 : ℚ) 1 2) wl * illuminant_power (sample_illuminant (1 : ℚ)) wl)
          / 1) :=
  tristimulus_range (sample_observer (1 : ℚ) 1 2) (sample_illuminant 1)
    (sample_observer_table 1 1 2) (sample_illuminant_table 1) 830 (by norm_num) (fun _ => 1)
    (fun _ _ _ => ⟨by norm_num, by norm_num⟩)
    (fun r hr => by
      simp only [sample_observer, List.mem_map] at hr
      obtain ⟨i, -, rfl⟩ := hr
      norm_num)
    (fun r hr => by
      simp only [sample_illuminant, List.mem_map] at hr
      obtain ⟨i, -, rfl⟩ := hr
      norm_num)
    1 (by have h := CIE_norm_sample_830 1 1 2 1; norm_num at h ⊢; exact h) (by norm_num)


/-! ## The interpolant: where it is evaluated, its clamp and its type -/

theorem resampled_eq_spline_argument {α : Type} [LinearOrderedField α] (spline_eval : α → α)
    (firstwav : Int) (k : Nat) :
    resampled spline_eval firstwav k =
      if spline_eval ((spline_argument firstwav k : Int) : α) < 0 then 0
      else spline_eval ((spline_argument firstwav k : Int) : α) := by
  unfold resampled spline_argument
  simp only
  split_ifs
  · norm_num
  · rfl

/-- The evaluation points of the pixel loop lie between the first native
wavelength and 830 nm. -/
theorem spline_argument_bounds {α : Type} [LinearOrderedField α] [FloorRing α]
    (wavelengths : List α) (firstwav : Int) (w0 : α)
    (h0 : readRow wavelengths 0 = some w0)
    (hfw : first_wavelength wavelengths = some firstwav) (k : Nat)
    (hk : k < (831 - firstwav).toNat) :
    w0 ≤ ((spline_argument firstwav k : Int) : α) ∧
      ((spline_argument firstwav k : Int) : α) ≤ 830 := by
  have hceil : ⌈w0⌉ = firstwav := by
    simpa [first_wavelength, h0] using hfw
  have hle : w0 ≤ (firstwav : α) := hceil ▸ Int.le_ceil w0
  have hk2 : (k : Int) + firstwav ≤ 830 := by omega
  have hk0 : firstwav ≤ (k : Int) + firstwav := by omega
  unfold spline_argument
  constructor
  · exact hle.trans (by exact_mod_cast hk0)
  · exact_mod_cast hk2

/-- C11, counterexample. A cube of two bands at 400 and 700 nm has strictly
increasing wavelengths and `firstwav = 400`; at step `k = 430` of the pixel
loop the interpolant is evaluated at 830 nm, beyond the last native
wavelength 700 nm. -/
theorem spline_argument_beyond_native_range :
    List.Pairwise (fun a b : ℚ => a < b) [400, 700] ∧
    first_wavelength [(400 : ℚ), 700] = some 400 ∧
    readRow [(400 : ℚ), 700] ((2 : Int) - 1) = some 700 ∧
    (430 : Nat) < (831 - (400 : Int)).toNat ∧
    (700 : ℚ) < ((spline_argument 400 430 : Int) : ℚ) := by
  have h : ⌈(400 : ℚ)⌉ = 400 := by
    rw [Int.ceil_eq_iff]
    norm_num
  refine ⟨by norm_num, ?_, by simp [readRow], by decide, ?_⟩
  · simp [first_wavelength, readRow, h]
  · norm_num [spline_argument]

/-- C11, amended. For every cube, every wavelength at which the render loop
evaluates the interpolant (`firstwav + k` for `k = 0 .. 830 - firstwav`) lies
within `[wavelengths[0], 830]`; with `firstwav ≤ 830` all of them lie within
`[wavelengths[0], wavelengths[bands-1]]` exactly when the last native
wavelength is at least 830 nm. -/
theorem spline_argument_range {α : Type} [LinearOrderedField α] [FloorRing α]
    (wavelengths : List α) (bands : Nat) (firstwav : Int) (w0 wlast : α)
    (h0 : readRow wavelengths 0 = some w0)
    (_hlast : readRow wavelengths ((bands : Int) - 1) = some wlast)
    (hfw : first_wavelength wavelengths = some firstwav) :
    (∀ k : Nat, k < (831 - firstwav).toNat →
      w0 ≤ ((spline_argument firstwav k : Int) : α) ∧
        ((spline_argument firstwav k : Int) : α) ≤ 830) ∧
    (firstwav ≤ 830 →
      ((∀ k : Nat, k < (831 - firstwav).toNat →
        ((spline_argument firstwav k : Int) : α) ≤ wlast) ↔ 830 ≤ wlast)) := by
  refine ⟨fun k hk => spline_argument_bounds wavelengths firstwav w0 h0 hfw k hk, ?_⟩
  intro h830
  constructor
  · intro h
    have hk : (830 - firstwav).toNat < (831 - firstwav).toNat := by omega
    have e : spline_argument firstwav (830 - firstwav).toNat = 830 := by
      unfold spline_argument
      omega
    have := h _ hk
    rw [e] at this
    exact_mod_cast this
  · intro h k hk
    exact (spline_argument_bounds wavelengths firstwav w0 h0 hfw k hk).2.trans h

/-- C11, witness of the amended statement: the cube of two bands at 400 and
700 nm. -/
theorem spline_argument_range_witness :
    readRow [(400 : ℚ), 700] 0 = some 400 ∧
    readRow [(400 : ℚ), 700] (((2 : Nat) : Int) - 1) = some 700 ∧
    first_wavelength [(400 : ℚ), 700] = some 400 ∧
    ((∀ k : Nat, k < (831 - (400 : Int)).toNat →
      (400 : ℚ) ≤ ((spline_argument 400 k : Int) : ℚ) ∧
        ((spline_argument 400 k : Int) : ℚ) ≤ 830) ∧
    ((400 : Int) ≤ 830 →
      ((∀ k : Nat, k < (831 - (400 : Int)).toNat →
        ((spline_argument 400 k : Int) : ℚ) ≤ 700) ↔ (830 : ℚ) ≤ 700))) :=
  have h : ⌈(400 : ℚ)⌉ = 400 := by
    rw [Int.ceil_eq_iff]
    norm_num
  have hfw : first_wavelength [(400 : ℚ), 700] = some 400 := by
    simp [first_wavelength, readRow, h]
  ⟨by simp [readRow], by simp [readRow], hfw,
    spline_argument_range [(400 : ℚ), 700] 2 400 400 700 (by simp [readRow])
      (by simp [readRow]) hfw⟩

/-- C12. For every pixel and every grid wavelength, and whatever the
interpolant returns, the resampled intensity that the render loop multiplies
into `X`, `Y` and `Z` is non-negative: it is the interpolant's value at
`firstwav + k` when that value is non-negative and 0 otherwise. -/
theorem resampled_nonneg {α : Type} [LinearOrderedField α] (spline_eval : α → α)
    (firstwav : Int) (k : Nat) :
    0 ≤ resampled spline_eval firstwav k ∧
      resampled spline_eval firstwav k =
        if 0 ≤ spline_eval ((spline_argument firstwav k : Int) : α) then
          spline_eval ((spline_argument firstwav k : Int) : α)
        else 0 := by
  rw [resampled_eq_spline_argument]
  by_cases h : spline_eval ((spline_argument firstwav k : Int) : α) < 0
  · rw [if_pos h, if_neg (not_le.mpr h)]
    exact ⟨le_refl 0, rfl⟩
  · rw [if_neg h, if_pos (not_lt.mp h)]
    exact ⟨not_lt.mp h, rfl⟩

/-- For every pixel and every band count the interpolant that the render loop
fits is the spline that GSL builds for `gsl_interp_linear`. -/
theorem pixel_spline_is_linear {α : Type}
    (gsl_spline : gsl_interp_type → List α → List α → Nat → α → α)
    (wavelengths spectrum : List α) (bands : Nat) :
    pixel_spline gsl_spline wavelengths spectrum bands =
      gsl_spline gsl_interp_type.gsl_interp_linear wavelengths spectrum bands :=
  rfl

/-- C13, the code at the failing input. For a cube of 3 bands, enough for a
cubic spline, the pixel loop of `main` requests `gsl_interp_linear` and not
`gsl_interp_cspline`, which the function `calculate_XYZ` requests for the same
cube. -/
theorem main_interp_type_three_bands :
    main_interp_type 3 = gsl_interp_type.gsl_interp_linear ∧
      main_interp_type 3 ≠ gsl_interp_type.gsl_interp_cspline ∧
      calculate_XYZ_interp_type 3 = gsl_interp_type.gsl_interp_cspline := by
  refine ⟨rfl, ?_, rfl⟩
  decide

/-! ## The quantizer -/

theorem c_trunc_of_nonneg {α : Type} [LinearOrderedField α] [FloorRing α] (x : α)
    (h : 0 ≤ x) : c_trunc x = ⌊x⌋ := by
  unfold c_trunc
  rw [if_pos h]

/-- Truncation keeps a value inside an interval with integer ends around 0. -/
theorem c_trunc_bounds {α : Type} [LinearOrderedField α] [FloorRing α] (x : α) (lo hi : Int)
    (hlo0 : lo ≤ 0) (hhi0 : 0 ≤ hi) (hlo : (lo : α) ≤ x) (hhi : x ≤ (hi : α)) :
    lo ≤ c_trunc x ∧ c_trunc x ≤ hi := by
  unfold c_trunc
  split_ifs with h
  · constructor
    · exact hlo0.trans (Int.floor_nonneg.mpr h)
    · have h1 : ((⌊x⌋ : Int) : α) ≤ (hi : α) := (Int.floor_le x).trans hhi
      exact_mod_cast h1
  · constructor
    · have h1 : (lo : α) ≤ ((⌈x⌉ : Int) : α) := hlo.trans (Int.le_ceil x)
      exact_mod_cast h1
    · have h1 : ⌈x⌉ ≤ 0 := Int.ceil_le.mpr (by exact_mod_cast (not_le.mp h).le)
      exact h1.trans hhi0

/-- A scaled channel `c * scale` with `c` in `[0,1]` is stored as `⌊scale * c⌋`,
which lies in `[0, scale]`. -/
theorem floor_scaled_unit {α : Type} [LinearOrderedField α] [FloorRing α] (c : α) (scale : Nat)
    (h0 : 0 ≤ c) (h1 : c ≤ 1) :
    c_trunc (c * (scale : α)) = ⌊(scale : α) * c⌋ ∧ 0 ≤ ⌊(scale : α) * c⌋ ∧
      ⌊(scale : α) * c⌋ ≤ (scale : Int) := by
  have hs : (0 : α) ≤ (scale : α) := Nat.cast_nonneg scale
  have hx0 : 0 ≤ (scale : α) * c := mul_nonneg hs h0
  have hx1 : (scale : α) * c ≤ ((scale : Int) : α) := by
    have := mul_le_mul_of_nonneg_left h1 hs
    rw [mul_one] at this
    exact_mod_cast this
  refine ⟨?_, Int.floor_nonneg.mpr hx0, ?_⟩
  · rw [mul_comm, c_trunc_of_nonneg _ hx0]
  · have h2 : ((⌊(scale : α) * c⌋ : Int) : α) ≤ ((scale : Int) : α) :=
      (Int.floor_le _).trans hx1
    exact_mod_cast h2

theorem to_uchar_unit {α : Type} [LinearOrderedField α] [FloorRing α] (c : α)
    (h0 : 0 ≤ c) (h1 : c ≤ 1) :
    to_uchar (c * 255.0) = ⌊255 * c⌋ ∧ 0 ≤ ⌊255 * c⌋ ∧ ⌊255 * c⌋ ≤ 255 := by
  have h := floor_scaled_unit c 255 h0 h1
  have e : (255.0 : α) = ((255 : Nat) : α) := by norm_num
  have e2 : ((255 : Nat) : α) = 255 := by norm_num
  unfold to_uchar
  rw [e, h.1]
  rw [e2] at h ⊢
  obtain ⟨-, ha, hb⟩ := h
  norm_num at hb
  refine ⟨?_, ha, hb⟩
  omega

theorem to_ushort_unit {α : Type} [LinearOrderedField α] [FloorRing α] (c : α)
    (h0 : 0 ≤ c) (h1 : c ≤ 1) :
    to_ushort (c * 65535.0) = ⌊65535 * c⌋ ∧ 0 ≤ ⌊65535 * c⌋ ∧ ⌊65535 * c⌋ ≤ 65535 := by
  have h := floor_scaled_unit c 65535 h0 h1
  have e : (65535.0 : α) = ((65535 : Nat) : α) := by norm_num
  have e2 : ((65535 : Nat) : α) = 65535 := by norm_num
  unfold to_ushort
  rw [e, h.1]
  rw [e2] at h ⊢
  obtain ⟨-, ha, hb⟩ := h
  norm_num at hb
  refine ⟨?_, ha, hb⟩
  omega

/-- C14. For gamma-encoded channel values `R`, `G`, `B` in `[0,1]` the RGB
quantizer stores `⌊255·c⌋`, which lies in `[0,255]`, for 8-bit output,
`⌊65535·c⌋`, which lies in `[0,65535]`, for 16-bit output, and `c` unchanged
for 32-bit float output: no value wraps in the unsigned storage type. -/
theorem quantize_RGB_unit_range {α : Type} [LinearOrderedField α] [FloorRing α] (R G B : α)
    (hR0 : 0 ≤ R) (hR1 : R ≤ 1) (hG0 : 0 ≤ G) (hG1 : G ≤ 1) (hB0 : 0 ≤ B) (hB1 : B ≤ 1) :
    (quantize_RGB 8 R G B =
        (Stored.u8 ⌊255 * R⌋, Stored.u8 ⌊255 * G⌋, Stored.u8 ⌊255 * B⌋) ∧
      (0 ≤ ⌊255 * R⌋ ∧ ⌊255 * R⌋ ≤ 255) ∧ (0 ≤ ⌊255 * G⌋ ∧ ⌊255 * G⌋ ≤ 255) ∧
      (0 ≤ ⌊255 * B⌋ ∧ ⌊255 * B⌋ ≤ 255)) ∧
    (quantize_RGB 16 R G B =
        (Stored.u16 ⌊65535 * R⌋, Stored.u16 ⌊65535 * G⌋, Stored.u16 ⌊65535 * B⌋) ∧
      (0 ≤ ⌊65535 * R⌋ ∧ ⌊65535 * R⌋ ≤ 65535) ∧ (0 ≤ ⌊65535 * G⌋ ∧ ⌊65535 * G⌋ ≤ 65535) ∧
      (0 ≤ ⌊65535 * B⌋ ∧ ⌊65535 * B⌋ ≤ 65535)) ∧
    quantize_RGB 32 R G B = (Stored.f32 R, Stored.f32 G, Stored.f32 B) ∧
    (quantize_RGB 8 (0 : α) 0 0 = (Stored.u8 0, Stored.u8 0, Stored.u8 0) ∧
      quantize_RGB 8 (1 : α) 1 1 = (Stored.u8 255, Stored.u8 255, Stored.u8 255)) ∧
    (quantize_RGB 16 (0 : α) 0 0 = (Stored.u16 0, Stored.u16 0, Stored.u16 0) ∧
      quantize_RGB 16 (1 : α) 1 1 = (Stored.u16 65535, Stored.u16 65535, Stored.u16 65535)) := by
  have z8 : to_uchar ((0 : α) * 255.0) = 0 := by
    rw [(to_uchar_unit (0 : α) le_rfl zero_le_one).1]
    simp
  have o8 : to_uchar ((1 : α) * 255.0) = 255 := by
    have e : (255 : α) = ((255 : Int) : α) := by norm_num
    rw [(to_uchar_unit (1 : α) zero_le_one le_rfl).1, mul_one, e, Int.floor_intCast]
  have z16 : to_ushort ((0 : α) * 65535.0) = 0 := by
    rw [(to_ushort_unit (0 : α) le_rfl zero_le_one).1]
    simp
  have o16 : to_ushort ((1 : α) * 65535.0) = 65535 := by
    have e : (65535 : α) = ((65535 : Int) : α) := by norm_num
    rw [(to_ushort_unit (1 : α) zero_le_one le_rfl).1, mul_one, e, Int.floor_intCast]
  obtain ⟨r8, r8a, r8b⟩ := to_uchar_unit R hR0 hR1
  obtain ⟨g8, g8a, g8b⟩ := to_uchar_unit G hG0 hG1
  obtain ⟨b8, b8a, b8b⟩ := to_uchar_unit B hB0 hB1
  obtain ⟨r16, r16a, r16b⟩ := to_ushort_unit R hR0 hR1
  obtain ⟨g16, g16a, g16b⟩ := to_ushort_unit G hG0 hG1
  obtain ⟨b16, b16a, b16b⟩ := to_ushort_unit B hB0 hB1
  refine ⟨⟨?_, ⟨r8a, r8b⟩, ⟨g8a, g8b⟩, ⟨b8a, b8b⟩⟩,
    ⟨?_, ⟨r16a, r16b⟩, ⟨g16a, g16b⟩, ⟨b16a, b16b⟩⟩, ?_, ⟨?_, ?_⟩, ?_, ?_⟩
  · simp only [quantize_RGB, r8, g8, b8]
    norm_num
  · simp only [quantize_RGB, r16, g16, b16]
    norm_num
  · simp [quantize_RGB]
  · simp only [quantize_RGB, z8]
    norm_num
  · simp only [quantize_RGB, o8]
    norm_num
  · simp only [quantize_RGB, z16]
    norm_num
  · simp only [quantize_RGB, o16]
    norm_num

/-- C14, witness: black, mid-grey and white channels.  The value 0 is stored
as 0 and the value 1 as the maximum code 255 or 65535. -/
theorem quantize_RGB_unit_range_witness :
    quantize_RGB 8 (0 : ℚ) (1 / 2) 1 = (Stored.u8 0, Stored.u8 127, Stored.u8 255) ∧
    quantize_RGB 16 (0 : ℚ) (1 / 2) 1 = (Stored.u16 0, Stored.u16 32767, Stored.u16 65535) ∧
    quantize_RGB 32 (0 : ℚ) (1 / 2) 1 = (Stored.f32 0, Stored.f32 (1 / 2), Stored.f32 1) := by
  have h := quantize_RGB_unit_range (0 : ℚ) (1 / 2) 1 (by norm_num) (by norm_num) (by norm_num)
    (by norm_num) (by norm_num) (by norm_num)
  have f1 : ⌊(255 : ℚ) * (1 / 2)⌋ = 127 := by
    rw [Int.floor_eq_iff]
    norm_num
  have f2 : ⌊(65535 : ℚ) * (1 / 2)⌋ = 32767 := by
    rw [Int.floor_eq_iff]
    norm_num
  have f3 : ⌊(255 : ℚ)⌋ = 255 := Int.floor_intCast 255
  have f4 : ⌊(65535 : ℚ)⌋ = 65535 := Int.floor_intCast 65535
  refine ⟨?_, ?_, h.2.2.1⟩
  · rw [h.1.1, f1]
    simp [f3]
  · rw [h.2.1.1, f2]
    simp [f4]

theorem to_schar_of_fits {α : Type} [LinearOrderedField α] [FloorRing α] (x : α)
    (h0 : -128 ≤ x) (h1 : x ≤ 127) :
    to_schar x = c_trunc x ∧ -128 ≤ c_trunc x ∧ c_trunc x ≤ 127 := by
  have h := c_trunc_bounds x (-128) 127 (by norm_num) (by norm_num)
    (by push_cast; exact h0) (by push_cast; exact h1)
  refine ⟨?_, h.1, h.2⟩
  unfold to_schar
  omega

theorem to_sshort_of_fits {α : Type} [LinearOrderedField α] [FloorRing α] (x : α)
    (h0 : -32768 ≤ x) (h1 : x ≤ 32767) :
    to_sshort x = c_trunc x ∧ -32768 ≤ c_trunc x ∧ c_trunc x ≤ 32767 := by
  have h := c_trunc_bounds x (-32768) 32767 (by norm_num) (by norm_num)
    (by push_cast; exact h0) (by push_cast; exact h1)
  refine ⟨?_, h.1, h.2⟩
  unfold to_sshort
  omega

theorem to_uchar_of_fits {α : Type} [LinearOrderedField α] [FloorRing α] (x : α)
    (h0 : 0 ≤ x) (h1 : x ≤ 255) :
    to_uchar x = c_trunc x ∧ 0 ≤ c_trunc x ∧ c_trunc x ≤ 255 := by
  have h := c_trunc_bounds x 0 255 (by norm_num) (by norm_num)
    (by push_cast; exact h0) (by push_cast; exact h1)
  refine ⟨?_, h.1, h.2⟩
  unfold to_uchar
  omega

theorem to_ushort_of_fits {α : Type} [LinearOrderedField α] [FloorRing α] (x : α)
    (h0 : 0 ≤ x) (h1 : x ≤ 65535) :
    to_ushort x = c_trunc x ∧ 0 ≤ c_trunc x ∧ c_trunc x ≤ 65535 := by
  have h := c_trunc_bounds x 0 65535 (by norm_num) (by norm_num)
    (by push_cast; exact h0) (by push_cast; exact h1)
  refine ⟨?_, h.1, h.2⟩
  unfold to_ushort
  omega

/-! ## Rounding to double precision: lemmas -/

theorem round_half_even_cases {α : Type} [LinearOrderedField α] [FloorRing α] (y : α) :
    (round_half_even y = ⌊y⌋ ∧ y - (⌊y⌋ : α) ≤ 1 / 2) ∨
      (round_half_even y = ⌊y⌋ + 1 ∧ 1 / 2 ≤ y - (⌊y⌋ : α)) := by
  unfold round_half_even
  split_ifs with h1 h2 h3
  · exact Or.inl ⟨rfl, h1.le⟩
  · exact Or.inr ⟨rfl, h2.le⟩
  · exact Or.inl ⟨rfl, not_lt.mp h2⟩
  · exact Or.inr ⟨rfl, not_lt.mp h1⟩

theorem round_half_even_le {α : Type} [LinearOrderedField α] [FloorRing α] (y : α) (n : Int)
    (h : y ≤ (n : α)) : round_half_even y ≤ n := by
  have hf : ⌊y⌋ ≤ n := by
    have : ((⌊y⌋ : Int) : α) ≤ (n : α) := (Int.floor_le y).trans h
    exact_mod_cast this
  rcases round_half_even_cases y with ⟨e, -⟩ | ⟨e, hhalf⟩
  · rw [e]
    exact hf
  · rw [e]
    by_contra hcon
    have hn : ⌊y⌋ = n := by omega
    have : (n : α) + 1 / 2 ≤ y := by
      rw [hn] at hhalf
      linarith
    linarith

theorem le_round_half_even {α : Type} [LinearOrderedField α] [FloorRing α] (y : α) (n : Int)
    (h : (n : α) ≤ y) : n ≤ round_half_even y := by
  have hf : n ≤ ⌊y⌋ := Int.le_floor.mpr h
  rcases round_half_even_cases y with ⟨e, -⟩ | ⟨e, -⟩ <;> rw [e] <;> omega

theorem round_half_even_of_lt_half {α : Type} [LinearOrderedField α] [FloorRing α] (y : α)
    (m : Int) (h1 : (m : α) ≤ y) (h2 : y < (m : α) + 1 / 2) : round_half_even y = m := by
  have hf : ⌊y⌋ = m := by
    rw [Int.floor_eq_iff]
    exact ⟨h1, by linarith⟩
  unfold round_half_even
  rw [hf, if_pos (by linarith)]

theorem round_half_even_of_gt_half {α : Type} [LinearOrderedField α] [FloorRing α] (y : α)
    (m : Int) (h1 : (m : α) + 1 / 2 < y) (h2 : y < (m : α) + 1) :
    round_half_even y = m + 1 := by
  have hf : ⌊y⌋ = m := by
    rw [Int.floor_eq_iff]
    exact ⟨by linarith, h2⟩
  unfold round_half_even
  rw [hf, if_neg (by linarith), if_pos (by linarith)]

theorem binade_eq {α : Type} [LinearOrderedField α] [FloorRing α] (x : α) (k : Int)
    (h1 : (2 : α) ^ k ≤ |x|) (h2 : |x| < (2 : α) ^ (k + 1)) : binade x = k := by
  have hpos : 0 < |x| := lt_of_lt_of_le (zpow_pos (by norm_num) k) h1
  have a := (Int.zpow_le_iff_le_log (R := α) (b := 2) (by norm_num) hpos (x := k)).mp
    (by simpa using h1)
  have b := (Int.lt_zpow_iff_log_lt (R := α) (b := 2) (by norm_num) hpos (x := k + 1)).mp
    (by simpa using h2)
  unfold binade
  omega

theorem binade_lt {α : Type} [LinearOrderedField α] [FloorRing α] (x : α) (m : Int)
    (hx : x ≠ 0) (h : |x| < (2 : α) ^ m) : binade x < m := by
  have hpos : 0 < |x| := abs_pos.mpr hx
  exact (Int.lt_zpow_iff_log_lt (R := α) (b := 2) (by norm_num) hpos (x := m)).mp
    (by simpa using h)

/-- The value of `round_double` from the binade and the rounded significand. -/
theorem round_double_eval {α : Type} [LinearOrderedField α] [FloorRing α] (x : α) (k n : Int)
    (h1 : (2 : α) ^ k ≤ |x|) (h2 : |x| < (2 : α) ^ (k + 1))
    (hn : round_half_even (x / (2 : α) ^ (k - 52)) = n) :
    round_double x = (n : α) * (2 : α) ^ (k - 52) := by
  have hpos : 0 < |x| := lt_of_lt_of_le (zpow_pos (by norm_num) k) h1
  have hx : x ≠ 0 := abs_pos.mp hpos
  unfold round_double
  rw [if_neg hx, binade_eq x k h1 h2, hn]

/-- A dyadic number `n / 2^j` with few enough bits is a double: rounding does
not cross it from below. -/
theorem round_double_le_dyadic {α : Type} [LinearOrderedField α] [FloorRing α] (x : α)
    (n : Int) (j : Nat) (hx : x ≤ (n : α) / (2 : α) ^ j)
    (hb : |x| < (2 : α) ^ ((53 : Int) - (j : Int))) :
    round_double x ≤ (n : α) / (2 : α) ^ j := by
  by_cases h0 : x = 0
  · unfold round_double
    rw [if_pos h0]
    rw [h0] at hx
    exact hx
  · have hk : binade x < 53 - (j : Int) := binade_lt x _ h0 hb
    obtain ⟨E, hE⟩ : ∃ E : Nat, (E : Int) = 52 - binade x - (j : Int) :=
      ⟨(52 - binade x - (j : Int)).toNat, by omega⟩
    have hQ : (0 : α) < (2 : α) ^ (binade x - 52) := zpow_pos (by norm_num) _
    have hrel : (2 : α) ^ (binade x - 52) * ((2 : α) ^ E * (2 : α) ^ j) = 1 := by
      rw [← zpow_natCast (2 : α) E, ← zpow_natCast (2 : α) j, ← zpow_add₀ (by norm_num),
        ← zpow_add₀ (by norm_num)]
      have : binade x - 52 + ((E : Int) + (j : Int)) = 0 := by omega
      rw [this, zpow_zero]
    have hj : (0 : α) < (2 : α) ^ j := pow_pos (by norm_num) j
    have hdy : (n : α) / (2 : α) ^ j = ((n * 2 ^ E : Int) : α) * (2 : α) ^ (binade x - 52) := by
      push_cast
      rw [div_eq_iff hj.ne']
      calc (n : α) = (n : α) * ((2 : α) ^ (binade x - 52) * ((2 : α) ^ E * (2 : α) ^ j)) := by
            rw [hrel, mul_one]
        _ = (n : α) * (2 : α) ^ E * (2 : α) ^ (binade x - 52) * (2 : α) ^ j := by ring
    have hle : x / (2 : α) ^ (binade x - 52) ≤ ((n * 2 ^ E : Int) : α) := by
      rw [div_le_iff₀ hQ, ← hdy]
      exact hx
    have hr := round_half_even_le _ _ hle
    unfold round_double
    rw [if_neg h0, hdy]
    exact mul_le_mul_of_nonneg_right (by exact_mod_cast hr) hQ.le

/-- Rounding does not cross a dyadic number `n / 2^j` with few enough bits from
above. -/
theorem dyadic_le_round_double {α : Type} [LinearOrderedField α] [FloorRing α] (x : α)
    (n : Int) (j : Nat) (hx : (n : α) / (2 : α) ^ j ≤ x)
    (hb : |x| < (2 : α) ^ ((53 : Int) - (j : Int))) :
    (n : α) / (2 : α) ^ j ≤ round_double x := by
  by_cases h0 : x = 0
  · unfold round_double
    rw [if_pos h0]
    rw [h0] at hx
    exact hx
  · have hk : binade x < 53 - (j : Int) := binade_lt x _ h0 hb
    obtain ⟨E, hE⟩ : ∃ E : Nat, (E : Int) = 52 - binade x - (j : Int) :=
      ⟨(52 - binade x - (j : Int)).toNat, by omega⟩
    have hQ : (0 : α) < (2 : α) ^ (binade x - 52) := zpow_pos (by norm_num) _
    have hrel : (2 : α) ^ (binade x - 52) * ((2 : α) ^ E * (2 : α) ^ j) = 1 := by
      rw [← zpow_natCast (2 : α) E, ← zpow_natCast (2 : α) j, ← zpow_add₀ (by norm_num),
        ← zpow_add₀ (by norm_num)]
      have : binade x - 52 + ((E : Int) + (j : Int)) = 0 := by omega
      rw [this, zpow_zero]
    have hj : (0 : α) < (2 : α) ^ j := pow_pos (by norm_num) j
    have hdy : (n : α) / (2 : α) ^ j = ((n * 2 ^ E : Int) : α) * (2 : α) ^ (binade x - 52) := by
      push_cast
      rw [div_eq_iff hj.ne']
      calc (n : α) = (n : α) * ((2 : α) ^ (binade x - 52) * ((2 : α) ^ E * (2 : α) ^ j)) := by
            rw [hrel, mul_one]
        _ = (n : α) * (2 : α) ^ E * (2 : α) ^ (binade x - 52) * (2 : α) ^ j := by ring
    have hle : ((n * 2 ^ E : Int) : α) ≤ x / (2 : α) ^ (binade x - 52) := by
      rw [le_div_iff₀ hQ, ← hdy]
      exact hx
    have hr := le_round_half_even _ _ hle
    unfold round_double
    rw [if_neg h0, hdy]
    exact mul_le_mul_of_nonneg_right (by exact_mod_cast hr) hQ.le

/-- The literal `2.55` of line 652 as a double: `2871044762448691 / 2^50`, just
below 2.55. -/
theorem round_double_2_55 {α : Type} [LinearOrderedField α] [FloorRing α] :
    round_double (2.55 : α) = 2871044762448691 / 1125899906842624 := by
  rw [round_double_eval (2.55 : α) 1 5742089524897382 (by norm_num [abs_of_pos])
    (by norm_num [abs_of_pos])
    (round_half_even_of_lt_half _ _ (by norm_num) (by norm_num))]
  norm_num

/-- The literal `655.35` of line 657 as a double: `5764519562104013 / 2^43`,
just above 655.35. -/
theorem round_double_655_35 {α : Type} [LinearOrderedField α] [FloorRing α] :
    round_double (655.35 : α) = 5764519562104013 / 8796093022208 := by
  have h := round_half_even_of_gt_half ((655.35 : α) / (2 : α) ^ ((9 : Int) - 52))
    5764519562104012 (by norm_num) (by norm_num)
  rw [round_double_eval (655.35 : α) 9 (5764519562104012 + 1) (by norm_num [abs_of_pos])
    (by norm_num [abs_of_pos]) h]
  norm_num

/-- The literal `255.0` is a double. -/
theorem round_double_255 {α : Type} [LinearOrderedField α] [FloorRing α] :
    round_double (255.0 : α) = 255 := by
  rw [round_double_eval (255.0 : α) 7 8972014882652160 (by norm_num [abs_of_pos])
    (by norm_num [abs_of_pos])
    (round_half_even_of_lt_half _ _ (by norm_num) (by norm_num))]
  norm_num

/-- The double product `L * 2.55` of line 652 for `L*` in `[0,100]` lies in
`[0,255]`. -/
theorem mul_double_2_55_range {α : Type} [LinearOrderedField α] [FloorRing α] (L : α)
    (hL0 : 0 ≤ L) (hL1 : L ≤ 100) :
    0 ≤ mul_double L 2.55 ∧ mul_double L 2.55 ≤ 255 := by
  unfold mul_double
  rw [round_double_2_55]
  have hp0 : (0 : α) ≤ L * (2871044762448691 / 1125899906842624) :=
    mul_nonneg hL0 (by norm_num)
  have hp1 : L * (2871044762448691 / 1125899906842624 : α) ≤ 255 := by
    have := mul_le_mul_of_nonneg_right hL1
      (show (0 : α) ≤ 2871044762448691 / 1125899906842624 by norm_num)
    refine this.trans ?_
    norm_num
  have hb : |L * (2871044762448691 / 1125899906842624 : α)| < (2 : α) ^ ((53 : Int) - ((0 : Nat) : Int)) := by
    rw [abs_of_nonneg hp0]
    refine lt_of_le_of_lt hp1 ?_
    norm_num
  have h1 := dyadic_le_round_double _ 0 0 (by simpa using hp0) hb
  have h2 := round_double_le_dyadic _ 255 0 (by simpa using hp1) hb
  constructor
  · simpa using h1
  · simpa using h2

/-- The double product `L * 655.35` of line 657 for `L*` in `[0,100]` lies in
`[0, 65535.5]`. -/
theorem mul_double_655_35_range {α : Type} [LinearOrderedField α] [FloorRing α] (L : α)
    (hL0 : 0 ≤ L) (hL1 : L ≤ 100) :
    0 ≤ mul_double L 655.35 ∧ mul_double L 655.35 ≤ 131071 / 2 := by
  unfold mul_double
  rw [round_double_655_35]
  have hp0 : (0 : α) ≤ L * (5764519562104013 / 8796093022208) :=
    mul_nonneg hL0 (by norm_num)
  have hp1 : L * (5764519562104013 / 8796093022208 : α) ≤ 131071 / 2 := by
    have := mul_le_mul_of_nonneg_right hL1
      (show (0 : α) ≤ 5764519562104013 / 8796093022208 by norm_num)
    refine this.trans ?_
    norm_num
  have hb0 : |L * (5764519562104013 / 8796093022208 : α)| <
      (2 : α) ^ ((53 : Int) - ((0 : Nat) : Int)) := by
    rw [abs_of_nonneg hp0]
    refine lt_of_le_of_lt hp1 ?_
    norm_num
  have hb1 : |L * (5764519562104013 / 8796093022208 : α)| <
      (2 : α) ^ ((53 : Int) - ((1 : Nat) : Int)) := by
    rw [abs_of_nonneg hp0]
    refine lt_of_le_of_lt hp1 ?_
    norm_num
  have h1 := dyadic_le_round_double _ 0 0 (by simpa using hp0) hb0
  have h2 := round_double_le_dyadic _ 131071 1 (by simpa using hp1) hb1
  constructor
  · simpa using h1
  · simpa using h2

/-- The double product `a * 255.0` of lines 658-659 for `a*` in `[-128,127]`
lies in `[-32640, 32385]`. -/
theorem mul_double_255_range {α : Type} [LinearOrderedField α] [FloorRing α] (a : α)
    (ha0 : -128 ≤ a) (ha1 : a ≤ 127) :
    -32640 ≤ mul_double a 255.0 ∧ mul_double a 255.0 ≤ 32385 := by
  unfold mul_double
  rw [round_double_255]
  have hp0 : (-32640 : α) ≤ a * 255 := by linarith
  have hp1 : a * 255 ≤ (32385 : α) := by linarith
  have hb : |a * 255| < (2 : α) ^ ((53 : Int) - ((0 : Nat) : Int)) := by
    rw [abs_lt]
    constructor
    · refine lt_of_lt_of_le ?_ hp0
      norm_num
    · refine lt_of_le_of_lt hp1 ?_
      norm_num
  have h1 := dyadic_le_round_double _ (-32640) 0 (by simpa using hp0) hb
  have h2 := round_double_le_dyadic _ 32385 0 (by simpa using hp1) hb
  constructor
  · simpa using h1
  · simpa using h2

/-- A non-negative value of at most 65535.5 is cast to `unsigned short` without
wrapping. -/
theorem to_ushort_of_fits_half {α : Type} [LinearOrderedField α] [FloorRing α] (x : α)
    (h0 : 0 ≤ x) (h1 : x ≤ 131071 / 2) :
    to_ushort x = c_trunc x ∧ 0 ≤ c_trunc x ∧ c_trunc x ≤ 65535 := by
  have hf : c_trunc x = ⌊x⌋ := c_trunc_of_nonneg x h0
  have hlo : 0 ≤ ⌊x⌋ := Int.floor_nonneg.mpr h0
  have hhi : ⌊x⌋ < 65536 := by
    rw [Int.floor_lt]
    refine lt_of_le_of_lt h1 ?_
    norm_num
  rw [hf]
  refine ⟨?_, hlo, by omega⟩
  unfold to_ushort
  rw [hf]
  omega

/-- C15. For `L*` in `[0,100]` and `a*`, `b*` in `[-128,127]` no cast of the
L*a*b* quantizer wraps.  For 8-bit output the casts give the truncated double
product `trunc(L* * 2.55)` in `[0,255]` and `trunc(a*)`, `trunc(b*)` in
`[-128,127]`; for 16-bit output `trunc(L* * 655.35)` in `[0,65535]` and
`trunc(a* * 255.0)`, `trunc(b* * 255.0)` in `[-32768,32767]`; the signed values
are stored as their two's complement pattern.  For 32-bit float output `L*`,
`a*`, `b*` are stored unchanged. -/
theorem quantize_LAB_fits {α : Type} [LinearOrderedField α] [FloorRing α] (L a b : α)
    (hL0 : 0 ≤ L) (hL1 : L ≤ 100) (ha0 : -128 ≤ a) (ha1 : a ≤ 127) (hb0 : -128 ≤ b)
    (hb1 : b ≤ 127) :
    (quantize_LAB 8 L a b =
        (Stored.u8 (c_trunc (mul_double L 2.55)), Stored.u8 (c_trunc a % 256),
          Stored.u8 (c_trunc b % 256)) ∧
      (0 ≤ c_trunc (mul_double L 2.55) ∧ c_trunc (mul_double L 2.55) ≤ 255) ∧
      (to_schar a = c_trunc a ∧ -128 ≤ c_trunc a ∧ c_trunc a ≤ 127) ∧
      (to_schar b = c_trunc b ∧ -128 ≤ c_trunc b ∧ c_trunc b ≤ 127)) ∧
    (quantize_LAB 16 L a b =
        (Stored.u16 (c_trunc (mul_double L 655.35)),
          Stored.u16 (c_trunc (mul_double a 255.0) % 65536),
          Stored.u16 (c_trunc (mul_double b 255.0) % 65536)) ∧
      (0 ≤ c_trunc (mul_double L 655.35) ∧ c_trunc (mul_double L 655.35) ≤ 65535) ∧
      (to_sshort (mul_double a 255.0) = c_trunc (mul_double a 255.0) ∧
        -32768 ≤ c_trunc (mul_double a 255.0) ∧ c_trunc (mul_double a 255.0) ≤ 32767) ∧
      (to_sshort (mul_double b 255.0) = c_trunc (mul_double b 255.0) ∧
        -32768 ≤ c_trunc (mul_double b 255.0) ∧ c_trunc (mul_double b 255.0) ≤ 32767)) ∧
    quantize_LAB 32 L a b = (Stored.f32 L, Stored.f32 a, Stored.f32 b) := by
  obtain ⟨l0, l1⟩ := mul_double_2_55_range L hL0 hL1
  obtain ⟨m0, m1⟩ := mul_double_655_35_range L hL0 hL1
  obtain ⟨p0, p1⟩ := mul_double_255_range a ha0 ha1
  obtain ⟨q0, q1⟩ := mul_double_255_range b hb0 hb1
  have hL8 := to_uchar_of_fits (mul_double L 2.55) l0 l1
  have hL16 := to_ushort_of_fits_half (mul_double L 655.35) m0 m1
  have ha8 := to_schar_of_fits a ha0 ha1
  have hb8 := to_schar_of_fits b hb0 hb1
  have ha16 := to_sshort_of_fits (mul_double a 255.0) (by linarith) (by linarith)
  have hb16 := to_sshort_of_fits (mul_double b 255.0) (by linarith) (by linarith)
  refine ⟨⟨?_, hL8.2, ha8, hb8⟩, ⟨?_, hL16.2, ha16, hb16⟩, ?_⟩
  · simp only [quantize_LAB, hL8.1, ha8.1, hb8.1]
    norm_num
  · simp only [quantize_LAB, hL16.1, ha16.1, hb16.1]
    norm_num
  · simp [quantize_LAB]

/-- The double product of line 652 at `L* = 100`: `255 - 2^-45`, as the C
expression `100.0f * 2.55` gives 254.99999999999997. -/
theorem mul_double_100_2_55 : mul_double (100 : ℚ) 2.55 = 8972014882652159 / 35184372088832 := by
  unfold mul_double
  rw [round_double_2_55]
  rw [round_double_eval ((100 : ℚ) * (2871044762448691 / 1125899906842624)) 7 8972014882652159
    (by norm_num [abs_of_pos]) (by norm_num [abs_of_pos])
    (round_half_even_of_lt_half _ _ (by norm_num) (by norm_num))]
  norm_num

/-- C15, witness: `L* = 100`, `a* = -128`, `b* = 127`, the ends of the ranges.
The double product `100 * 2.55` is `254.99999999999997` and is stored as 254. -/
theorem quantize_LAB_fits_witness :
    quantize_LAB 8 (100 : ℚ) (-128) 127 = (Stored.u8 254, Stored.u8 128, Stored.u8 127) ∧
    quantize_LAB 32 (100 : ℚ) (-128) 127 =
      (Stored.f32 100, Stored.f32 (-128), Stored.f32 127) := by
  have h := quantize_LAB_fits (100 : ℚ) (-128) 127 (by norm_num) (by norm_num) (by norm_num)
    (by norm_num) (by norm_num) (by norm_num)
  have e1 : c_trunc (mul_double (100 : ℚ) 2.55) = 254 := by
    rw [mul_double_100_2_55, c_trunc_of_nonneg _ (by norm_num), Int.floor_eq_iff]
    norm_num
  have e2 : c_trunc (-128 : ℚ) = -128 := by
    have : (-128 : ℚ) = ((-128 : Int) : ℚ) := by norm_num
    rw [this, c_trunc_intCast]
  have e3 : c_trunc (127 : ℚ) = 127 := by
    have : (127 : ℚ) = ((127 : Int) : ℚ) := by norm_num
    rw [this, c_trunc_intCast]
  refine ⟨?_, h.2.2⟩
  rw [h.1.1, e1, e2, e3]
  norm_num


/-! ## The scanline buffer -/

theorem spectrum_index_lt (samples bands i k : Nat) (hi : i < samples) (hk : k < bands) :
    spectrum_index samples i k < samples * bands := by
  unfold spectrum_index
  calc i + samples * k < samples + samples * k := Nat.add_lt_add_right hi _
    _ = samples * (k + 1) := by ring
    _ ≤ samples * bands := Nat.mul_le_mul_left samples hk

theorem spectrum_index_injective (samples i k i2 k2 : Nat) (hi : i < samples)
    (hi2 : i2 < samples) (h : spectrum_index samples i2 k2 = spectrum_index samples i k) :
    i2 = i ∧ k2 = k := by
  unfold spectrum_index at h
  have hm : (i2 + samples * k2) % samples = (i + samples * k) % samples := by rw [h]
  rw [Nat.add_mul_mod_self_left, Nat.add_mul_mod_self_left, Nat.mod_eq_of_lt hi2,
    Nat.mod_eq_of_lt hi] at hm
  subst hm
  have hpos : 0 < samples := lt_of_le_of_lt (Nat.zero_le _) hi
  have hk : samples * k2 = samples * k := Nat.add_left_cancel h
  exact ⟨rfl, Nat.eq_of_mul_eq_mul_left hpos hk⟩

theorem normalized_intensity_unit {α : Type} [LinearOrderedField α] (raw : Nat)
    (hraw : raw < 65536) :
    (normalized_intensity 2 raw : α) = (raw : α) / 65535 ∧
      0 ≤ (normalized_intensity 2 raw : α) ∧ (normalized_intensity 2 raw : α) ≤ 1 := by
  have e : (normalized_intensity 2 raw : α) = (raw : α) / 65535 := by
    unfold normalized_intensity
    norm_num
  have h1 : (raw : α) ≤ 65535 := by
    have : raw ≤ 65535 := Nat.le_of_lt_succ hraw
    exact_mod_cast this
  rw [e]
  refine ⟨rfl, div_nonneg (Nat.cast_nonneg raw) (by norm_num), ?_⟩
  rw [div_le_one (by norm_num)]
  exact h1

/-- C16. For a scanline buffer of `samples·bands` 16-bit raw values, a pixel
`i < samples` and a band `k < bands`, the render loop reads the band-major
element at index `i + samples·k`; the index is below `samples·bands`, distinct
pairs `(i, k)` have distinct indices, the read succeeds and the normalized
intensity `raw/65535` lies in `[0,1]`; with at most 320 bands, the size of the
array `spectrum`, the whole spectrum of the pixel is extracted, band `k` at
position `k`. -/
theorem extract_spectrum_band_major {α : Type} [LinearOrderedField α]
    (scanline_spectrum : List Nat) (samples bands : Nat)
    (hlen : scanline_spectrum.length = samples * bands)
    (hraw : ∀ raw ∈ scanline_spectrum, raw < 65536) (i k : Nat) (hi : i < samples)
    (hk : k < bands) :
    spectrum_index samples i k = k * samples + i ∧
    spectrum_index samples i k < samples * bands ∧
    (∀ i2 k2 : Nat, i2 < samples → k2 < bands →
      spectrum_index samples i2 k2 = spectrum_index samples i k → i2 = i ∧ k2 = k) ∧
    ∃ raw : Nat, scanline_spectrum[spectrum_index samples i k]? = some raw ∧
      (normalized_intensity 2 raw : α) = (raw : α) / 65535 ∧
      0 ≤ (normalized_intensity 2 raw : α) ∧ (normalized_intensity 2 raw : α) ≤ 1 ∧
      (bands ≤ 320 →
        ∃ spectrum : List α,
          extract_spectrum scanline_spectrum samples bands 2 i = some spectrum ∧
          spectrum.length = bands ∧ spectrum[k]? = some (normalized_intensity 2 raw)) := by
  have hex : ∀ k2 : Nat, k2 < bands →
      ∃ raw : Nat, scanline_spectrum[spectrum_index samples i k2]? = some raw ∧ raw < 65536 := by
    intro k2 hk2
    have hlt : spectrum_index samples i k2 < scanline_spectrum.length := by
      rw [hlen]
      exact spectrum_index_lt samples bands i k2 hi hk2
    have hr := List.getElem?_eq_getElem hlt
    exact ⟨_, hr, hraw _ (List.getElem?_mem hr)⟩
  obtain ⟨raw, hread, hlt⟩ := hex k hk
  obtain ⟨e, h0, h1⟩ := normalized_intensity_unit (α := α) raw hlt
  refine ⟨by unfold spectrum_index; ring, spectrum_index_lt samples bands i k hi hk,
    fun i2 k2 hi2 _ h => spectrum_index_injective samples i k i2 k2 hi hi2 h,
    raw, hread, e, h0, h1, ?_⟩
  intro h320
  have hall : extract_spectrum (α := α) scanline_spectrum samples bands 2 i =
      some ((List.range bands).map fun (k2 : Nat) =>
        normalized_intensity 2 ((scanline_spectrum[spectrum_index samples i k2]?).getD 0)) := by
    unfold extract_spectrum
    apply mapM_option_eq_some_map
    intro k2 hk2
    obtain ⟨r2, hr2, -⟩ := hex k2 (List.mem_range.mp hk2)
    rw [if_pos (lt_of_lt_of_le (List.mem_range.mp hk2) h320), hr2]
    rfl
  refine ⟨_, hall, by simp, ?_⟩
  rw [List.getElem?_map, List.getElem?_range hk]
  simp only [Option.map_some', hread, Option.getD_some]

/-- C16, witness: a scanline of 2 samples and 3 bands, pixel 1 and band 2. -/
theorem extract_spectrum_band_major_witness :
    spectrum_index 2 1 2 = 2 * 2 + 1 ∧
    spectrum_index 2 1 2 < 2 * 3 ∧
    (∀ i2 k2 : Nat, i2 < 2 → k2 < 3 →
      spectrum_index 2 i2 k2 = spectrum_index 2 1 2 → i2 = 1 ∧ k2 = 2) ∧
    ∃ raw : Nat, [0, 10, 20, 30, 40, 65535][spectrum_index 2 1 2]? = some raw ∧
      (normalized_intensity 2 raw : ℚ) = (raw : ℚ) / 65535 ∧
      0 ≤ (normalized_intensity 2 raw : ℚ) ∧ (normalized_intensity 2 raw : ℚ) ≤ 1 ∧
      (3 ≤ 320 →
        ∃ spectrum : List ℚ,
          extract_spectrum [0, 10, 20, 30, 40, 65535] 2 3 2 1 = some spectrum ∧
          spectrum.length = 3 ∧ spectrum[2]? = some (normalized_intensity 2 raw)) :=
  extract_spectrum_band_major [0, 10, 20, 30, 40, 65535] 2 3 (by decide)
    (by decide) 1 2 (by decide) (by decide)

/-! ## A constant spectrum, and the table indices -/

/-- C17. If the clamped interpolant of a pixel equals the same constant `s` at
every integer wavelength from `firstwav` to 830 and `N ≠ 0`, then for all
well-formed observer and illuminant tables the render loop's `Y` equals
`100·s` exactly (a perfect reflector, `s = 1`, gets `Y = 100`): the
normalisation sum and the pixel sum run over the same wavelengths with the same
table offsets. -/
theorem render_Y_of_constant_spectrum {α : Type} [LinearOrderedField α] [FloorRing α]
    (cie : List (α × α × α × α)) (pw : List (α × α)) (hcie : ObserverTable cie)
    (hpw : IlluminantTable pw) (firstwav : Int) (h360 : 360 ≤ firstwav) (S : α → α) (s : α)
    (hS : ∀ k : Nat, k < (831 - firstwav).toNat → resampled S firstwav k = s)
    (N : α) (hN : CIE_norm cie pw firstwav (firstwav - 360) (firstwav - 300) = some N)
    (hN0 : N ≠ 0) :
    ∃ XX ZZ, render_XYZ cie pw firstwav S = some (XX, 100 * s, ZZ) := by
  have hn := CIE_norm_eq_spec cie pw hcie hpw firstwav h360
  rw [hN, Option.some.injEq] at hn
  subst hn
  have hsum : ∑ wl ∈ Finset.Icc firstwav 830,
      max (S (wl : α)) 0 * ybar cie wl * illuminant_power pw wl =
        s * spec_N cie pw firstwav := by
    rw [spec_N, Finset.mul_sum]
    apply Finset.sum_congr rfl
    intro wl hwl
    rw [Finset.mem_Icc] at hwl
    have hk : (wl - firstwav).toNat < (831 - firstwav).toNat := by omega
    have e : firstwav + (((wl - firstwav).toNat : Nat) : Int) = wl := by omega
    have h := hS _ hk
    rw [resampled_eq_max, e] at h
    rw [h, mul_assoc]
  refine ⟨(spec_XYZ cie pw firstwav S).1, (spec_XYZ cie pw firstwav S).2.2, ?_⟩
  rw [render_XYZ_eq_spec_of_tables cie pw hcie hpw firstwav h360 S]
  have hY : (spec_XYZ cie pw firstwav S).2.1 = 100 * s := by
    simp only [spec_XYZ, hsum]
    rw [← mul_assoc, mul_div_assoc, div_self hN0, mul_one]
  rw [← hY]

/-- C17, witness: the sample tables, `firstwav = 830` and a perfect reflector. -/
theorem render_Y_of_constant_spectrum_witness :
    ∃ XX ZZ, render_XYZ (sample_observer (1 : ℚ) 1 2) (sample_illuminant 1) 830 (fun _ => 1) =
      some (XX, 100 * 1, ZZ) :=
  render_Y_of_constant_spectrum (sample_observer (1 : ℚ) 1 2) (sample_illuminant 1)
    (sample_observer_table 1 1 2) (sample_illuminant_table 1) 830 (by norm_num) (fun _ => 1) 1
    (fun k _ => by simp [resampled])
    1 (by have h := CIE_norm_sample_830 1 1 2 1; norm_num at h ⊢; exact h) (by norm_num)

theorem readRow_isSome_iff {ρ : Type} (table : List ρ) (i : Int) :
    (readRow table i).isSome = true ↔ 0 ≤ i ∧ i < table.length := by
  unfold readRow
  split_ifs with h
  · simp only [Option.isSome_none, Bool.false_eq_true, false_iff, not_and, not_lt]
    intro h2
    omega
  · rw [Option.isSome_iff_exists]
    constructor
    · rintro ⟨a, ha⟩
      have := (List.getElem?_eq_some.mp ha).1
      omega
    · rintro ⟨_, h2⟩
      have h3 : i.toNat < table.length := by omega
      exact ⟨_, List.getElem?_eq_getElem h3⟩

/-- C18. With the observer table of 471 rows (360-830 nm), the illuminant table
of 531 rows (300-830 nm) and `firstwav ≤ 830`, the offsets of `main` are
`tr = firstwav - 360` and `te = firstwav - 300`, and every index `tr + k` and
`te + k` of the normalisation loop and of the pixel loop
(`k = 0 .. 830 - firstwav`) is within its table if and only if
`firstwav ≥ 360`; for `firstwav < 360` the first observer index is negative
and both loops read outside the table. -/
theorem table_indices_in_bounds_iff {α : Type} [LinearOrderedField α] [FloorRing α]
    (cie : List (α × α × α × α)) (pw : List (α × α)) (hcie : ObserverTable cie)
    (hpw : IlluminantTable pw) (firstwav : Int) (h830 : firstwav ≤ 830) (S : α → α) :
    table_offsets cie pw firstwav = some (firstwav - 360, firstwav - 300) ∧
    ((∀ k : Nat, k < (831 - firstwav).toNat →
        (0 ≤ firstwav - 360 + (k : Int) ∧ firstwav - 360 + (k : Int) < 471) ∧
        (0 ≤ firstwav - 300 + (k : Int) ∧ firstwav - 300 + (k : Int) < 531)) ↔
      360 ≤ firstwav) ∧
    ((∀ k : Nat, k < (831 - firstwav).toNat →
        (readRow cie (firstwav - 360 + (k : Int))).isSome = true ∧
        (readRow pw (firstwav - 300 + (k : Int))).isSome = true) ↔
      360 ≤ firstwav) ∧
    (firstwav < 360 →
      firstwav - 360 + ((0 : Nat) : Int) < 0 ∧
      readRow cie (firstwav - 360 + ((0 : Nat) : Int)) = none ∧
      CIE_norm cie pw firstwav (firstwav - 360) (firstwav - 300) = none ∧
      pixel_sums cie pw firstwav (firstwav - 360) (firstwav - 300) S = none) := by
  have hidx : (∀ k : Nat, k < (831 - firstwav).toNat →
        (0 ≤ firstwav - 360 + (k : Int) ∧ firstwav - 360 + (k : Int) < 471) ∧
        (0 ≤ firstwav - 300 + (k : Int) ∧ firstwav - 300 + (k : Int) < 531)) ↔
      360 ≤ firstwav := by
    constructor
    · intro h
      have := h 0 (by omega)
      omega
    · intro h k hk
      omega
  refine ⟨table_offsets_eq cie pw hcie hpw firstwav, hidx, ?_, ?_⟩
  · rw [← hidx]
    apply forall_congr'
    intro k
    apply imp_congr_right
    intro _
    rw [readRow_isSome_iff, readRow_isSome_iff, hcie.1, hpw.1]
    norm_num
  · intro h
    have hneg : firstwav - 360 + ((0 : Nat) : Int) < 0 := by omega
    have hnone : readRow cie (firstwav - 360 + ((0 : Nat) : Int)) = none := by
      unfold readRow
      rw [if_pos hneg]
    obtain ⟨m, hm⟩ : ∃ m : Nat, (831 - firstwav).toNat = m + 1 :=
      ⟨(831 - firstwav).toNat - 1, by omega⟩
    refine ⟨hneg, hnone, ?_, ?_⟩
    · unfold CIE_norm
      rw [hm, List.range_succ_eq_map, List.foldlM_cons, hnone]
      rfl
    · unfold pixel_sums
      rw [hm, List.range_succ_eq_map, List.foldlM_cons, hnone]
      rfl

/-- C18, witness: the sample tables and a cube that starts at 350 nm. -/
theorem table_indices_in_bounds_iff_witness :
    (350 : Int) ≤ 830 ∧
    readRow (sample_observer (1 : ℚ) 1 2) ((350 : Int) - 360 + ((0 : Nat) : Int)) = none ∧
    CIE_norm (sample_observer (1 : ℚ) 1 2) (sample_illuminant 1) 350 (350 - 360) (350 - 300) =
      none :=
  have h := table_indices_in_bounds_iff (sample_observer (1 : ℚ) 1 2) (sample_illuminant 1)
    (sample_observer_table 1 1 2) (sample_illuminant_table 1) 350 (by norm_num) (fun _ => 1)
  ⟨by norm_num, (h.2.2.2 (by norm_num)).2.1, (h.2.2.2 (by norm_num)).2.2.1⟩

/-! ## The sRGB transfer function around its breakpoint -/

theorem clip_ieee_num {α : Type} [LinearOrderedField α] (hi x : α) :
    clip_ieee hi (CFloat.num x) = CFloat.num (clip hi x) := by
  unfold clip_ieee clip
  simp only [CFloat.le, decide_eq_true_eq, ge_iff_le]
  split_ifs <;> rfl

theorem clip_ieee_nan {α : Type} [LinearOrderedField α] (hi : α) :
    clip_ieee hi (CFloat.nan : CFloat α) = CFloat.nan := by
  simp [clip_ieee, CFloat.le]

theorem div_num_of_ne_zero {α : Type} [LinearOrderedField α] (x c : α) (hc : c ≠ 0) :
    CFloat.div (CFloat.num x) (CFloat.num c) = CFloat.num (x / c) := by
  simp [CFloat.div, hc]

theorem mul_num_inf_of_pos {α : Type} [LinearOrderedField α] (c : α) (hc : 0 < c) (s : Bool) :
    CFloat.mul (CFloat.num c) (CFloat.inf s) = CFloat.inf s := by
  simp [CFloat.mul, hc.ne', not_lt.mpr hc.le]

theorem lab_f_ieee_num {α : Type} [LinearOrderedField α] (cbrtf : α → α) (v : α) :
    lab_f_ieee cbrtf (CFloat.num v) = CFloat.num (lab_f cbrtf v) := by
  unfold lab_f_ieee lab_f
  simp only [CFloat.lt, decide_eq_true_eq, gt_iff_lt]
  split_ifs <;> rfl

theorem XYZ2RGB_ieee_num {α : Type} [LinearOrderedField α] (m : Matrix3 α) (X Y Z : α) :
    XYZ2RGB_ieee m (CFloat.num X) (CFloat.num Y) (CFloat.num Z) =
      (CFloat.num (XYZ2RGB m X Y Z).1, CFloat.num (XYZ2RGB m X Y Z).2.1,
        CFloat.num (XYZ2RGB m X Y Z).2.2) := by
  have h : (100.0 : α) ≠ 0 := by norm_num
  simp only [XYZ2RGB_ieee, XYZ2RGB, div_num_of_ne_zero _ _ h, CFloat.mul, CFloat.add,
    clip_ieee_num]

theorem XYZ2RGB_ieee_nan {α : Type} [LinearOrderedField α] (m : Matrix3 α) :
    XYZ2RGB_ieee m (CFloat.nan : CFloat α) CFloat.nan CFloat.nan =
      (CFloat.nan, CFloat.nan, CFloat.nan) := by
  simp [XYZ2RGB_ieee, CFloat.div, CFloat.mul, CFloat.add, clip_ieee_nan]

theorem sRGB_Gamma_ieee_num {α : Type} [LinearOrderedField α] (powf : α → α → α) (c : α) :
    _sRGB_Gamma_ieee powf (CFloat.num c) = CFloat.num (_sRGB_Gamma powf c) := by
  unfold _sRGB_Gamma_ieee _sRGB_Gamma
  simp only [CFloat.le, decide_eq_true_eq]
  split_ifs with h
  · rfl
  · have hc : ¬ c < 0 := by
      intro hneg
      apply h
      have : (0 : α) ≤ 0.0031308 := by norm_num
      exact hneg.le.trans this
    simp [powf_ieee, hc, CFloat.mul, CFloat.sub, CFloat.add, CFloat.neg, sub_eq_add_neg]

theorem sRGB_Gamma_ieee_nan {α : Type} [LinearOrderedField α] (powf : α → α → α) :
    _sRGB_Gamma_ieee powf (CFloat.nan : CFloat α) = CFloat.nan := by
  simp [_sRGB_Gamma_ieee, CFloat.le, powf_ieee, CFloat.mul, CFloat.sub, CFloat.add, CFloat.neg]

theorem powf_ieee_num {α : Type} [LinearOrderedField α] (powf : α → α → α) (c e : α)
    (hc : 0 ≤ c) : powf_ieee powf (CFloat.num c) e = CFloat.num (powf c e) := by
  simp [powf_ieee, not_lt.mpr hc]

/-- For a finite tristimulus the conversion on floating values is the conversion
on numbers. -/
theorem render_RGB_ieee_num {α : Type} [LinearOrderedField α] (powf : α → α → α)
    (icc_profile : Nat) (temperature : Int) (XX YY ZZ : α) :
    render_RGB_ieee powf icc_profile temperature (CFloat.num XX) (CFloat.num YY)
        (CFloat.num ZZ) =
      (CFloat.num (render_RGB powf icc_profile temperature XX YY ZZ).1,
        CFloat.num (render_RGB powf icc_profile temperature XX YY ZZ).2.1,
        CFloat.num (render_RGB powf icc_profile temperature XX YY ZZ).2.2) := by
  unfold render_RGB_ieee render_RGB
  split_ifs with hp ht ht
  · obtain ⟨⟨a1, -⟩, ⟨b1, -⟩, ⟨c1, -⟩⟩ := XYZ2RGB_range XYZ_AdobeRGB_matrix_D50 XX YY ZZ
    simp only [XYZ2RGB_ieee_num, AdobeRGB_Gamma_ieee, AdobeRGB_Gamma, powf_ieee_num _ _ _ a1,
      powf_ieee_num _ _ _ b1, powf_ieee_num _ _ _ c1]
  · obtain ⟨⟨a1, -⟩, ⟨b1, -⟩, ⟨c1, -⟩⟩ := XYZ2RGB_range XYZ_AdobeRGB_matrix_D65 XX YY ZZ
    simp only [XYZ2RGB_ieee_num, AdobeRGB_Gamma_ieee, AdobeRGB_Gamma, powf_ieee_num _ _ _ a1,
      powf_ieee_num _ _ _ b1, powf_ieee_num _ _ _ c1]
  · simp only [XYZ2RGB_ieee_num, sRGB_Gamma_ieee, sRGB_Gamma, sRGB_Gamma_ieee_num]
  · simp only [XYZ2RGB_ieee_num, sRGB_Gamma_ieee, sRGB_Gamma, sRGB_Gamma_ieee_num]

theorem render_RGB_ieee_nan_nan {α : Type} [LinearOrderedField α] (powf : α → α → α)
    (icc_profile : Nat) (temperature : Int) :
    render_RGB_ieee powf icc_profile temperature (CFloat.nan : CFloat α) CFloat.nan CFloat.nan =
      (CFloat.nan, CFloat.nan, CFloat.nan) := by
  unfold render_RGB_ieee
  split_ifs <;>
    simp [XYZ2RGB_ieee_nan, AdobeRGB_Gamma_ieee, sRGB_Gamma_ieee, sRGB_Gamma_ieee_nan, powf_ieee]

/-- With `norm ≠ 0` the IEEE division of lines 604-606 is the division of
numbers: the tristimulus is the one of `render_XYZ`. -/
theorem render_XYZ_ieee_of_norm_ne_zero {α : Type} [LinearOrderedField α] [FloorRing α]
    (cie : List (α × α × α × α)) (pw : List (α × α)) (firstwav tr te : Int) (S : α → α)
    (N : α) (hoff : table_offsets cie pw firstwav = some (tr, te))
    (hN : CIE_norm cie pw firstwav tr te = some N) (hN0 : N ≠ 0) :
    render_XYZ_ieee cie pw firstwav S =
      (render_XYZ cie pw firstwav S).map fun p =>
        (CFloat.num p.1, CFloat.num p.2.1, CFloat.num p.2.2) := by
  unfold render_XYZ_ieee render_XYZ
  simp only [hoff, hN, Option.bind_eq_bind, Option.some_bind]
  cases hs : pixel_sums cie pw firstwav tr te S with
  | none => rfl
  | some p =>
    obtain ⟨X, Y, Z⟩ := p
    simp only [Option.some_bind, div_num_of_ne_zero _ _ hN0]
    rfl

/-- For a cube that starts above 830 nm both loops are empty: the sums and
`norm` are 0 and each division `0 * 100.0 / 0` gives NaN. -/
theorem render_XYZ_ieee_above_830 {α : Type} [LinearOrderedField α] [FloorRing α]
    (cie : List (α × α × α × α)) (pw : List (α × α)) (hcie : ObserverTable cie)
    (hpw : IlluminantTable pw) (firstwav : Int) (h : 830 < firstwav) (S : α → α) :
    render_XYZ_ieee cie pw firstwav S = some (CFloat.nan, CFloat.nan, CFloat.nan) := by
  obtain ⟨e1, e2⟩ :=
    loops_empty_above_830 cie pw firstwav (firstwav - 360) (firstwav - 300) h S
  unfold render_XYZ_ieee
  simp only [table_offsets_eq cie pw hcie hpw firstwav, e1, e2, Option.bind_eq_bind,
    Option.some_bind]
  simp [CFloat.div]

/-- For every finite tristimulus, every rendering temperature and both RGB
spaces, the RGB that the render loop computes on floating values is finite and
has each of R, G and B in `[0,1]`. -/
theorem render_RGB_ieee_finite_range (icc_profile : Nat) (temperature : Int) (XX YY ZZ : ℝ) :
    ∃ R G B : ℝ,
      render_RGB_ieee (fun x e : ℝ => x ^ e) icc_profile temperature (CFloat.num XX)
        (CFloat.num YY) (CFloat.num ZZ) = (CFloat.num R, CFloat.num G, CFloat.num B) ∧
      (0 ≤ R ∧ R ≤ 1) ∧ (0 ≤ G ∧ G ≤ 1) ∧ (0 ≤ B ∧ B ≤ 1) :=
  ⟨_, _, _, render_RGB_ieee_num _ icc_profile temperature XX YY ZZ,
    render_RGB_in_unit_range icc_profile temperature XX YY ZZ⟩

/-- C1, the code at the failing input. A cube that starts at 831 nm gives the
tristimulus `(NaN, NaN, NaN)`, and for it the render loop passes
`R = G = B = NaN` to the quantizer, in both RGB spaces and with either matrix:
both comparisons of the clip of `XYZ2RGB` are false for NaN. -/
theorem render_RGB_ieee_nan :
    render_XYZ_ieee (sample_observer (1 : ℝ) 1 2) (sample_illuminant 1) 831 (fun _ => 1) =
      some (CFloat.nan, CFloat.nan, CFloat.nan) ∧
    render_RGB_ieee (fun x e : ℝ => x ^ e) 1 6504 CFloat.nan CFloat.nan CFloat.nan =
      (CFloat.nan, CFloat.nan, CFloat.nan) ∧
    render_RGB_ieee (fun x e : ℝ => x ^ e) 1 5000 CFloat.nan CFloat.nan CFloat.nan =
      (CFloat.nan, CFloat.nan, CFloat.nan) ∧
    render_RGB_ieee (fun x e : ℝ => x ^ e) 2 6504 CFloat.nan CFloat.nan CFloat.nan =
      (CFloat.nan, CFloat.nan, CFloat.nan) ∧
    render_RGB_ieee (fun x e : ℝ => x ^ e) 2 5000 CFloat.nan CFloat.nan CFloat.nan =
      (CFloat.nan, CFloat.nan, CFloat.nan) :=
  ⟨render_XYZ_ieee_above_830 _ _ (sample_observer_table 1 1 2) (sample_illuminant_table 1) 831
      (by norm_num) _,
    render_RGB_ieee_nan_nan _ 1 6504, render_RGB_ieee_nan_nan _ 1 5000,
    render_RGB_ieee_nan_nan _ 2 6504, render_RGB_ieee_nan_nan _ 2 5000⟩

/-- For every input whose `Y` is not NaN, negative, arbitrarily large and
infinite values included, and whatever `cbrtf` returns on numbers, the `L*`
that `XYZ2LAB` returns on floating values is a number in `[0,100]`. -/
theorem XYZ2LAB_ieee_L_range {α : Type} [LinearOrderedField α] (cbrtf : α → α)
    (X Y Z : CFloat α) (hY : Y ≠ CFloat.nan) :
    ∃ L : α, (XYZ2LAB_ieee cbrtf X Y Z).1 = CFloat.num L ∧ 0 ≤ L ∧ L ≤ 100 := by
  have h100 : (Y_D65 : α) ≠ 0 := by norm_num [Y_D65]
  have hpos : ¬ (Y_D65 : α) < 0 := by norm_num [Y_D65]
  have c0 : (0 : α) ≤ 100.0 := by norm_num
  have c1 : (100.0 : α) = 100 := by norm_num
  cases Y with
  | num y =>
    refine ⟨clip 100.0 ((116.0 * lab_f cbrtf (y / Y_D65)) - 16.0), ?_,
      clip_nonneg _ _ c0, (clip_le _ _ c0).trans c1.le⟩
    simp only [XYZ2LAB_ieee, div_num_of_ne_zero _ _ h100, lab_f_ieee_num, CFloat.mul,
      CFloat.sub, CFloat.neg, CFloat.add, clip_ieee_num, sub_eq_add_neg]
  | inf s =>
    have e116 : (0 : α) < 116.0 := by norm_num
    have e7 : (0 : α) < 7.787 := by norm_num
    have ediv : CFloat.div (CFloat.inf s) (CFloat.num (Y_D65 : α)) = CFloat.inf s := by
      simp [CFloat.div, hpos]
    cases s with
    | false =>
      refine ⟨100.0, ?_, c0, c1.le⟩
      simp only [XYZ2LAB_ieee, ediv, lab_f_ieee, CFloat.lt, Bool.not_false, if_true,
        cbrtf_ieee, mul_num_inf_of_pos _ e116, CFloat.sub, CFloat.neg, CFloat.add, clip_ieee,
        CFloat.le, Bool.false_eq_true, if_false]
    | true =>
      refine ⟨0.0, ?_, by norm_num, by norm_num⟩
      simp only [XYZ2LAB_ieee, ediv, lab_f_ieee, CFloat.lt, Bool.not_true, Bool.false_eq_true,
        if_false, mul_num_inf_of_pos _ e7, mul_num_inf_of_pos _ e116, CFloat.sub, CFloat.neg,
        CFloat.add, clip_ieee, CFloat.le, if_true]
  | nan => exact absurd rfl hY

/-- C2, the code at the failing input. A cube that starts at 831 nm gives the
tristimulus `(NaN, NaN, NaN)`, and for it `XYZ2LAB` returns `L* = NaN`: both
comparisons of its clip are false for NaN. -/
theorem XYZ2LAB_ieee_nan :
    render_XYZ_ieee (sample_observer (1 : ℝ) 1 2) (sample_illuminant 1) 831 (fun _ => 1) =
      some (CFloat.nan, CFloat.nan, CFloat.nan) ∧
    (XYZ2LAB_ieee (fun x : ℝ => x ^ ((1 : ℝ) / 3)) CFloat.nan CFloat.nan CFloat.nan).1 =
      CFloat.nan := by
  refine ⟨render_XYZ_ieee_above_830 _ _ (sample_observer_table 1 1 2)
    (sample_illuminant_table 1) 831 (by norm_num) _, ?_⟩
  simp [XYZ2LAB_ieee, CFloat.div, lab_f_ieee, CFloat.lt, CFloat.mul, CFloat.sub, CFloat.neg,
    CFloat.add, clip_ieee, CFloat.le]

end Hyper2Color
